import Mathlib

/-!
# Verification of the GoGame rules engine (`GoGame/game.py`, `GoGame/players.py`)

Shallow embedding of the three-colour Go variant implemented in the repository.

Conventions of the embedding:
* a board coordinate is a pair of integers (`Point`), mirroring the Python
  tuples; `Goban.check_coordinates` becomes the predicate `InBounds`;
* cell contents are the integers used by the source (`FREE = 0`, `BLACK = 1`,
  `GREY = 2`, `WHITE = 3`); the cell map `GameState._state` (a `defaultdict`
  that yields `FREE` for absent keys) becomes a total function `Point → Nat`;
* the score dictionary becomes a total function `Nat → Nat` (the claims under
  study only ever touch the three colour keys that the Python dict owns);
* Python exceptions are modelled by returning the post-exception state
  together with an `Except` value, because the mutated `self` survives a
  raised exception and the claims talk about that state.
-/

/-- The `FREE` cell marker of `GameState`. -/
def FREE : Nat := 0

/-- The `BLACK` colour constant of `GameState`. -/
def BLACK : Nat := 1

/-- The `GREY` colour constant of `GameState`. -/
def GREY : Nat := 2

/-- The `WHITE` colour constant of `GameState`. -/
def WHITE : Nat := 3

/-- Model of `GameState.TURNS`, the cyclic turn order list. -/
def TURNS : List Nat := [BLACK, GREY, WHITE]

/-- A board coordinate: the Python code uses integer tuples `(x, y)`. -/
abbrev Point : Type := Int × Int

/-- Model of `Goban`: the playing field, a rectangle of `w × h` cells. -/
structure Board where
  w : Nat
  h : Nat
deriving DecidableEq

/-- Model of `Goban.check_coordinates`: `0 ≤ x < w` and `0 ≤ y < h`
(the dimensionality check is vacuous here because `Point` is always a pair). -/
def InBounds (b : Board) (p : Point) : Prop :=
  0 ≤ p.1 ∧ p.1 < (b.w : Int) ∧ 0 ≤ p.2 ∧ p.2 < (b.h : Int)

instance (b : Board) (p : Point) : Decidable (InBounds b p) := by
  unfold InBounds; infer_instance

/-- Model of `Goban.neighbour_points`: the in-bounds 4-neighbours, produced from the
deltas `(1,0), (0,1), (-1,0), (0,-1)` in source order. -/
def neighbourPoints (b : Board) (p : Point) : List Point :=
  [(p.1 + 1, p.2), (p.1, p.2 + 1), (p.1 - 1, p.2), (p.1, p.2 - 1)].filter
    (fun q => decide (InBounds b q))

/-- The finite set of in-bounds coordinates of a board. -/
def boardFinset (b : Board) : Finset Point :=
  (Finset.range b.w ×ˢ Finset.range b.h).image (fun q => ((q.1 : Int), (q.2 : Int)))

theorem mem_boardFinset {b : Board} {p : Point} : p ∈ boardFinset b ↔ InBounds b p := by
  obtain ⟨x, y⟩ := p
  constructor
  · rintro h
    simp only [boardFinset, Finset.mem_image, Finset.mem_product, Finset.mem_range] at h
    obtain ⟨⟨a, c⟩, ⟨ha, hc⟩, h⟩ := h
    obtain ⟨h1, h2⟩ := Prod.mk.injEq .. ▸ h
    refine ⟨?_, ?_, ?_, ?_⟩ <;> omega
  · rintro ⟨h1, h2, h3, h4⟩
    simp only [boardFinset, Finset.mem_image, Finset.mem_product, Finset.mem_range]
    exact ⟨⟨x.toNat, y.toNat⟩, ⟨by omega, by omega⟩, by simp; omega⟩

theorem card_boardFinset (b : Board) : (boardFinset b).card = b.w * b.h := by
  rw [boardFinset, Finset.card_image_of_injective, Finset.card_product,
    Finset.card_range, Finset.card_range]
  intro a c h
  obtain ⟨h1, h2⟩ := Prod.mk.injEq .. ▸ h
  exact Prod.ext (by exact_mod_cast h1) (by exact_mod_cast h2)

theorem mem_neighbourPoints {b : Board} {p q : Point} :
    q ∈ neighbourPoints b p ↔
      InBounds b q ∧
        (q = (p.1 + 1, p.2) ∨ q = (p.1, p.2 + 1) ∨ q = (p.1 - 1, p.2) ∨ q = (p.1, p.2 - 1)) := by
  simp only [neighbourPoints, List.mem_filter, List.mem_cons, List.not_mem_nil, or_false,
    decide_eq_true_eq]
  tauto

theorem inBounds_of_mem_neighbourPoints {b : Board} {p q : Point}
    (h : q ∈ neighbourPoints b p) : InBounds b q :=
  (mem_neighbourPoints.mp h).1

/-- 4-adjacency is symmetric (up to the bounds checks on the two endpoints). -/
theorem mem_neighbourPoints_symm {b : Board} {p q : Point}
    (hp : InBounds b p) (h : q ∈ neighbourPoints b p) : p ∈ neighbourPoints b q := by
  rw [mem_neighbourPoints] at h ⊢
  obtain ⟨x, y⟩ := p
  obtain ⟨hq, hcase⟩ := h
  refine ⟨hp, ?_⟩
  rcases hcase with h | h | h | h <;> subst h <;> simp

/-!
## The worklist flood fill shared by `get_group` and `get_liberties`

Both Python methods run the same loop: pop a point from the end of a worklist,
record it as seen, push the not-yet-seen same-coloured in-bounds neighbours,
and accumulate every neighbour satisfying a filter (`≠ colour` for the border
of `get_group`, `= FREE` for the liberties of `get_liberties`).  The head of
the Lean list is the end of the Python list, so pushes prepend in reversed
order.  A point may enter the worklist twice (it is only checked against the
seen set, not against the pending worklist), exactly as in the source.
-/

/-- One reason the loop terminates: the measure below decreases on every
iteration of `floodAux`.  First component: in-bounds points not yet seen.
Second component: worklist entries that are already seen or out of bounds. -/
def floodMeasure (b : Board) (stack : List Point) (visited : Finset Point) : Nat × Nat :=
  ((boardFinset b \ visited).card,
    stack.countP (fun q => decide (q ∈ visited) || !(decide (InBounds b q))))

/-- The worklist loop of `GameState.get_group` / `GameState.get_liberties`.
Returns the seen set and the accumulated filtered neighbours. -/
def floodAux (b : Board) (cells : Point → Nat) (colour : Nat) (filt : Point → Bool) :
    List Point → Finset Point → Finset Point → Finset Point × Finset Point
  | [], visited, acc => (visited, acc)
  | c :: rest, visited, acc =>
    floodAux b cells colour filt
      (((neighbourPoints b c).filter
          (fun q => decide (cells q = colour) && !(decide (q ∈ insert c visited)))).reverse
        ++ rest)
      (insert c visited)
      (acc ∪ ((neighbourPoints b c).filter filt).toFinset)
termination_by stack visited _ => floodMeasure b stack visited
decreasing_by
  simp only [floodMeasure]
  by_cases hc : InBounds b c ∧ c ∉ visited
  · apply Prod.Lex.left
    have hmem : c ∈ boardFinset b \ visited := by
      rw [Finset.mem_sdiff, mem_boardFinset]; exact ⟨hc.1, hc.2⟩
    have : boardFinset b \ insert c visited = (boardFinset b \ visited).erase c := by
      ext q
      simp only [Finset.mem_sdiff, Finset.mem_insert, Finset.mem_erase, mem_boardFinset]
      tauto
    rw [this]
    exact Finset.card_erase_lt_of_mem hmem
  · have hc' : c ∈ visited ∨ ¬ InBounds b c := by tauto
    have hset : boardFinset b \ insert c visited = boardFinset b \ visited := by
      rcases hc' with h | h
      · rw [Finset.insert_eq_self.mpr h]
      · ext q
        simp only [Finset.mem_sdiff, Finset.mem_insert, mem_boardFinset]
        constructor
        · rintro ⟨hq, hq2⟩; exact ⟨hq, fun hv => hq2 (Or.inr hv)⟩
        · rintro ⟨hq, hq2⟩
          refine ⟨hq, ?_⟩
          rintro (rfl | hv)
          · exact h hq
          · exact hq2 hv
    rw [hset]
    apply Prod.Lex.right
    rw [List.countP_append, List.countP_reverse]
    have hpush :
        ((neighbourPoints b c).filter
            (fun q => decide (cells q = colour) && !(decide (q ∈ insert c visited)))).countP
          (fun q => decide (q ∈ insert c visited) || !(decide (InBounds b q))) = 0 := by
      rw [List.countP_eq_zero]
      intro q hq
      rw [List.mem_filter] at hq
      obtain ⟨hqn, hqf⟩ := hq
      have hbounds := inBounds_of_mem_neighbourPoints hqn
      simp only [Bool.and_eq_true, Bool.not_eq_eq_eq_not, Bool.not_true,
        decide_eq_false_iff_not, decide_eq_true_eq] at hqf
      simp [hqf.2, hbounds]
    rw [hpush, Nat.zero_add]
    have hrest :
        rest.countP (fun q => decide (q ∈ insert c visited) || !(decide (InBounds b q)))
          = rest.countP (fun q => decide (q ∈ visited) || !(decide (InBounds b q))) := by
      apply List.countP_congr
      intro q _
      by_cases hqc : q = c
      · subst hqc
        have hl : (decide (q ∈ insert q visited) || !(decide (InBounds b q))) = true := by
          simp
        rw [hl]
        rcases hc' with h | h <;> simp [h]
      · simp [Finset.mem_insert, hqc]
    rw [hrest, List.countP_cons]
    have : (fun q => decide (q ∈ visited) || !(decide (InBounds b q))) c = true := by
      rcases hc' with h | h <;> simp [h]
    simp [this]

/-- A fuel-indexed mirror of `floodAux` (one unit of fuel per loop iteration),
used to evaluate the loop on concrete boards; it returns the remaining
worklist alongside the two sets. -/
def floodFuel (b : Board) (cells : Point → Nat) (colour : Nat) (filt : Point → Bool) :
    Nat → List Point → Finset Point → Finset Point →
      List Point × Finset Point × Finset Point
  | _, [], visited, acc => ([], visited, acc)
  | 0, c :: rest, visited, acc => (c :: rest, visited, acc)
  | fuel + 1, c :: rest, visited, acc =>
    floodFuel b cells colour filt fuel
      (((neighbourPoints b c).filter
          (fun q => decide (cells q = colour) && !(decide (q ∈ insert c visited)))).reverse
        ++ rest)
      (insert c visited)
      (acc ∪ ((neighbourPoints b c).filter filt).toFinset)

/-- When the fueled loop drains its worklist, it agrees with `floodAux`. -/
theorem floodAux_eq_floodFuel (b : Board) (cells : Point → Nat) (colour : Nat)
    (filt : Point → Bool) :
    ∀ (fuel : Nat) (stack : List Point) (visited acc : Finset Point),
      (floodFuel b cells colour filt fuel stack visited acc).1 = [] →
      floodAux b cells colour filt stack visited acc
        = (floodFuel b cells colour filt fuel stack visited acc).2 := by
  intro fuel
  induction fuel with
  | zero =>
    intro stack visited acc h
    match stack with
    | [] => rw [floodAux, floodFuel]
    | c :: rest => rw [floodFuel] at h; exact absurd h (by simp)
  | succ n ih =>
    intro stack visited acc h
    match stack with
    | [] => rw [floodAux, floodFuel]
    | c :: rest =>
      rw [floodFuel] at h
      rw [floodAux, floodFuel]
      exact ih _ _ _ h

/-- One step of same-colour flood reachability: `q` is an in-bounds
4-neighbour of `p` carrying the given colour. -/
def SameStep (b : Board) (cells : Point → Nat) (colour : Nat) (p q : Point) : Prop :=
  q ∈ neighbourPoints b p ∧ cells q = colour

/-- Reachability through same-coloured in-bounds cells: the declarative
description of the flood fill (the "group" of §3 of the specification). -/
def Reaches (b : Board) (cells : Point → Nat) (colour : Nat) (p q : Point) : Prop :=
  Relation.ReflTransGen (SameStep b cells colour) p q

theorem Reaches.inBounds {b : Board} {cells : Point → Nat} {colour : Nat} {p q : Point}
    (hp : InBounds b p) (h : Reaches b cells colour p q) : InBounds b q := by
  induction h with
  | refl => exact hp
  | tail _ hstep _ => exact inBounds_of_mem_neighbourPoints hstep.1

theorem Reaches.colour_eq {b : Board} {cells : Point → Nat} {colour : Nat} {p q : Point}
    (hp : cells p = colour) (h : Reaches b cells colour p q) : cells q = colour := by
  induction h with
  | refl => exact hp
  | tail _ hstep _ => exact hstep.2

theorem Reaches.symm {b : Board} {cells : Point → Nat} {colour : Nat} {p q : Point}
    (hp : InBounds b p) (hpc : cells p = colour) (h : Reaches b cells colour p q) :
    Reaches b cells colour q p := by
  induction h with
  | refl => exact Relation.ReflTransGen.refl
  | @tail m q hm hstep ih =>
    refine Relation.ReflTransGen.head ⟨?_, ?_⟩ ih
    · exact mem_neighbourPoints_symm (Reaches.inBounds hp hm) hstep.1
    · exact Reaches.colour_eq hpc hm

/-- Full characterisation of the worklist loop: given sound initial data for a
seed `p`, the loop returns exactly the same-colour reachable set of `p`
together with the filtered neighbourhood of that set. -/
theorem floodAux_spec (b : Board) (cells : Point → Nat) (colour : Nat) (filt : Point → Bool)
    (p : Point) :
    ∀ (stack : List Point) (visited acc : Finset Point),
      (∀ c ∈ stack, InBounds b c ∧ cells c = colour ∧ Reaches b cells colour p c) →
      (∀ v ∈ visited, InBounds b v ∧ cells v = colour ∧ Reaches b cells colour p v) →
      (p ∈ visited ∨ p ∈ stack) →
      (∀ v ∈ visited, v ∉ stack →
        ∀ q ∈ neighbourPoints b v, cells q = colour → q ∈ visited ∨ q ∈ stack) →
      (∀ q, filt q = true → (∃ v, v ∈ visited ∧ v ∉ stack ∧ q ∈ neighbourPoints b v) →
        q ∈ acc) →
      (∀ q ∈ acc, filt q = true ∧ ∃ v ∈ visited, q ∈ neighbourPoints b v) →
      (∀ q, q ∈ (floodAux b cells colour filt stack visited acc).1 ↔
          Reaches b cells colour p q) ∧
      (∀ q, q ∈ (floodAux b cells colour filt stack visited acc).2 ↔
          filt q = true ∧ ∃ v, Reaches b cells colour p v ∧ q ∈ neighbourPoints b v) := by
  intro stack visited acc
  induction stack, visited, acc using floodAux.induct b cells colour filt with
  | case1 visited acc =>
    intro _ h2 h3 h4 h5 h6
    rw [floodAux]
    have hcomplete : ∀ q, Reaches b cells colour p q → q ∈ visited := by
      intro q hq
      induction hq with
      | refl => exact h3.resolve_right (List.not_mem_nil p)
      | @tail m q hm hstep ihm =>
        rcases h4 m ihm (List.not_mem_nil m) q hstep.1 hstep.2 with h | h
        · exact h
        · exact absurd h (List.not_mem_nil q)
    constructor
    · intro q
      exact ⟨fun hq => (h2 q hq).2.2, hcomplete q⟩
    · intro q
      constructor
      · intro hq
        obtain ⟨hf, v, hv, hnbr⟩ := h6 q hq
        exact ⟨hf, v, (h2 v hv).2.2, hnbr⟩
      · rintro ⟨hf, v, hreach, hnbr⟩
        exact h5 q hf ⟨v, hcomplete v hreach, List.not_mem_nil v, hnbr⟩
  | case2 c rest visited acc ih =>
    intro h1 h2 h3 h4 h5 h6
    rw [floodAux]
    set visited' := insert c visited with hvisited'
    set pushes := (neighbourPoints b c).filter
      (fun q => decide (cells q = colour) && !(decide (q ∈ insert c visited))) with hpushes
    have mem_pushes : ∀ q, q ∈ pushes ↔
        q ∈ neighbourPoints b c ∧ cells q = colour ∧ q ∉ visited' := by
      intro q
      rw [hpushes, List.mem_filter]
      simp only [Bool.and_eq_true, decide_eq_true_eq, Bool.not_eq_eq_eq_not, Bool.not_true,
        decide_eq_false_iff_not, hvisited']
    have mem_stack' : ∀ q, q ∈ pushes.reverse ++ rest ↔ q ∈ pushes ∨ q ∈ rest := by
      intro q; rw [List.mem_append, List.mem_reverse]
    have hc := h1 c (List.mem_cons_self c rest)
    apply ih
    · -- worklist soundness
      intro q hq
      rcases (mem_stack' q).mp hq with hq | hq
      · obtain ⟨hnbr, hcol, _⟩ := (mem_pushes q).mp hq
        exact ⟨inBounds_of_mem_neighbourPoints hnbr, hcol,
          Relation.ReflTransGen.tail hc.2.2 ⟨hnbr, hcol⟩⟩
      · exact h1 q (List.mem_cons_of_mem c hq)
    · -- seen-set soundness
      intro v hv
      rcases Finset.mem_insert.mp hv with rfl | hv
      · exact hc
      · exact h2 v hv
    · -- the seed is seen or pending
      rcases h3 with h | h
      · exact Or.inl (Finset.mem_insert_of_mem h)
      · rcases List.mem_cons.mp h with rfl | h
        · exact Or.inl (Finset.mem_insert_self p visited)
        · exact Or.inr ((mem_stack' p).mpr (Or.inr h))
    · -- closure of retired seen points
      intro v hv hvs q hq hqc
      have hcase : v = c ∨ (v ∈ visited ∧ v ∉ (c :: rest)) := by
        rcases Finset.mem_insert.mp hv with rfl | hv2
        · exact Or.inl rfl
        · by_cases hvc : v = c
          · exact Or.inl hvc
          · refine Or.inr ⟨hv2, ?_⟩
            intro hmem
            rcases List.mem_cons.mp hmem with h | h
            · exact hvc h
            · exact hvs ((mem_stack' v).mpr (Or.inr h))
      rcases hcase with rfl | ⟨hv2, hvr⟩
      · by_cases hqv : q ∈ visited'
        · exact Or.inl hqv
        · exact Or.inr ((mem_stack' q).mpr (Or.inl ((mem_pushes q).mpr ⟨hq, hqc, hqv⟩)))
      · rcases h4 v hv2 hvr q hq hqc with h | h
        · exact Or.inl (Finset.mem_insert_of_mem h)
        · rcases List.mem_cons.mp h with rfl | h
          · exact Or.inl (Finset.mem_insert_self q visited)
          · exact Or.inr ((mem_stack' q).mpr (Or.inr h))
    · -- accumulator lower bound
      intro q hf hex
      obtain ⟨v, hv, hvs, hnbr⟩ := hex
      rw [Finset.mem_union]
      have hcase : v = c ∨ (v ∈ visited ∧ v ∉ (c :: rest)) := by
        rcases Finset.mem_insert.mp hv with rfl | hv2
        · exact Or.inl rfl
        · by_cases hvc : v = c
          · exact Or.inl hvc
          · refine Or.inr ⟨hv2, ?_⟩
            intro hmem
            rcases List.mem_cons.mp hmem with h | h
            · exact hvc h
            · exact hvs ((mem_stack' v).mpr (Or.inr h))
      rcases hcase with rfl | ⟨hv2, hvr⟩
      · refine Or.inr ?_
        rw [List.mem_toFinset, List.mem_filter]
        exact ⟨hnbr, hf⟩
      · exact Or.inl (h5 q hf ⟨v, hv2, hvr, hnbr⟩)
    · -- accumulator upper bound
      intro q hq
      rcases Finset.mem_union.mp hq with hq | hq
      · obtain ⟨hf, v, hv, hnbr⟩ := h6 q hq
        exact ⟨hf, v, Finset.mem_insert_of_mem hv, hnbr⟩
      · rw [List.mem_toFinset, List.mem_filter] at hq
        exact ⟨hq.2, c, Finset.mem_insert_self c visited, hq.1⟩

/-!
## `GameState` and its operations
-/

/-- Model of `GameState`: board, cell contents, whose turn it is, and the score table. -/
structure GameState where
  board : Board
  cells : Point → Nat
  turn : Nat
  score : Nat → Nat

/-- Model of `GameState.__init__`: every cell `FREE`, `BLACK` to move, all scores 0. -/
def initState (b : Board) : GameState :=
  { board := b, cells := fun _ => FREE, turn := BLACK, score := fun _ => 0 }

/-- Model of `GameState.set_state` (also the tentative-placement/rollback writes). -/
def setState (s : GameState) (p : Point) (v : Nat) : GameState :=
  { s with cells := fun q => if q = p then v else s.cells q }

/-- Model of `GameState.get_group`: flood fill over cells of the seed's colour; first
component is the group, second the differing-colour border (`boarder`). -/
def getGroup (s : GameState) (p : Point) : Finset Point × Finset Point :=
  floodAux s.board s.cells (s.cells p) (fun q => decide (s.cells q ≠ s.cells p)) [p] {p} ∅

/-- Model of `GameState.get_liberties`: `{p}` when the seed is `FREE`, otherwise the
`FREE` cells collected along the flood fill of the seed's group. -/
def getLiberties (s : GameState) (p : Point) : Finset Point :=
  if s.cells p = FREE then {p}
  else (floodAux s.board s.cells (s.cells p) (fun q => decide (s.cells q = FREE)) [p] ∅ ∅).2

/-- Model of `GameState.count_liberties`. -/
def countLiberties (s : GameState) (p : Point) : Nat :=
  (getLiberties s p).card

/-- Model of `GameState.catch_group`: clears the group at `p`, returns its size. -/
def catchGroup (s : GameState) (p : Point) : GameState × Nat :=
  ({ s with cells := fun q => if q ∈ (getGroup s p).1 then FREE else s.cells q },
    (getGroup s p).1.card)

/-- Model of `GameState.increase_score`: credits points to the colour whose turn it is. -/
def increaseScore (s : GameState) (n : Nat) : GameState :=
  { s with score := fun c => if c = s.turn then s.score c + n else s.score c }

/-- Model of `GameState.take_stones`: sweep the 4-neighbours of the played point in
source order; capture each group of a different value whose current liberty
count is zero, crediting and accumulating its size. -/
def takeStones (s : GameState) (point : Point) : GameState × Nat :=
  (neighbourPoints s.board point).foldl
    (fun st q =>
      if st.1.cells q ≠ st.1.turn ∧ countLiberties st.1 q = 0 then
        (increaseScore (catchGroup st.1 q).1 (catchGroup st.1 q).2,
          st.2 + (catchGroup st.1 q).2)
      else st)
    (s, 0)

/-- Model of `GameState.dict_turns` as built by `get_turns_order` from
`TURNS = [BLACK, GREY, WHITE]`: the cyclic successor map `{1 ↦ 2, 2 ↦ 3, 3 ↦ 1}`.
Any other key is absent (a lookup raises `KeyError`). -/
def dictTurns : Nat → Option Nat
  | 1 => some 2
  | 2 => some 3
  | 3 => some 1
  | _ => none

/-- Model of `GameState.next_turn`.  A missing key would raise `KeyError` leaving the
state unchanged, which the `none` branch mirrors. -/
def nextTurn (s : GameState) : GameState :=
  match dictTurns s.turn with
  | some t => { s with turn := t }
  | none => s

/-- The exceptions `GameState.make_move` can propagate: the three explicit
`ValueError`s, plus the `KeyError` that `next_turn` raises when `_turn` is not
one of the three colours. -/
inductive MoveErr where
  | badCoordinates
  | occupied
  | suicide
  | keyError
deriving DecidableEq

/-- Model of `GameState.make_move`: bounds check, occupancy check, tentative placement,
`check_for_suicide` (revert and fail on zero liberties), capture sweep,
turn rotation.  The returned state is the one Python leaves behind, also when
an exception propagates. -/
def makeMove (s : GameState) (point : Point) : GameState × Except MoveErr Nat :=
  if InBounds s.board point then
    if s.cells point = FREE then
      let s1 := setState s point s.turn
      if countLiberties s1 point = 0 then
        (setState s1 point FREE, Except.error MoveErr.suicide)
      else
        match dictTurns s.turn with
        | some t =>
          ({ (takeStones s1 point).1 with turn := t }, Except.ok (takeStones s1 point).2)
        | none => ((takeStones s1 point).1, Except.error MoveErr.keyError)
    else (s, Except.error MoveErr.occupied)
  else (s, Except.error MoveErr.badCoordinates)

/-- Model of `GameState.get_free_points`, listed in a fixed traversal order.  Python
iterates the set of free points in an unspecified order; the theorems below
show the outcome is order-independent, so a row-major enumeration is used. -/
def freePointsList (s : GameState) : List Point :=
  ((List.range s.board.w).flatMap fun x =>
    (List.range s.board.h).map fun y => (((x : Nat) : Int), ((y : Nat) : Int))).filter
    (fun q => decide (s.cells q = FREE))

/-- Model of `GameState.take_territory`: walk the free points, flood-fill each unseen
empty region once, and credit the region size when its whole border holds
`colour`. -/
def takeTerritory (s : GameState) (colour : Nat) : GameState :=
  { s with score := fun c =>
      if c = colour then
        s.score c +
          ((freePointsList s).foldl
            (fun (st : Finset Point × Nat) point =>
              if point ∉ st.1 then
                (st.1 ∪ (getGroup s point).1,
                  if ∀ q ∈ (getGroup s point).2, s.cells q = colour then
                    st.2 + (getGroup s point).1.card
                  else st.2)
              else st)
            (∅, 0)).2
      else s.score c }

/-!
## Characterisation of `get_group` and `get_liberties`
-/

theorem mem_getGroup_fst {s : GameState} {p : Point} (hp : InBounds s.board p) (q : Point) :
    q ∈ (getGroup s p).1 ↔ Reaches s.board s.cells (s.cells p) p q := by
  have h := floodAux_spec s.board s.cells (s.cells p)
    (fun q => decide (s.cells q ≠ s.cells p)) p [p] {p} ∅
    (by
      intro c hc
      rcases List.mem_cons.mp hc with rfl | hc
      · exact ⟨hp, rfl, Relation.ReflTransGen.refl⟩
      · exact absurd hc (List.not_mem_nil c))
    (by
      intro v hv
      rcases Finset.mem_singleton.mp hv with rfl
      exact ⟨hp, rfl, Relation.ReflTransGen.refl⟩)
    (Or.inl (Finset.mem_singleton_self p))
    (by
      intro v hv hvs
      rcases Finset.mem_singleton.mp hv with rfl
      exact absurd (List.mem_cons_self v []) hvs)
    (by
      rintro q _ ⟨v, hv, hvs, _⟩
      rcases Finset.mem_singleton.mp hv with rfl
      exact absurd (List.mem_cons_self v []) hvs)
    (by intro q hq; exact absurd hq (Finset.not_mem_empty q))
  exact h.1 q

theorem mem_getGroup_snd {s : GameState} {p : Point} (hp : InBounds s.board p) (q : Point) :
    q ∈ (getGroup s p).2 ↔
      s.cells q ≠ s.cells p ∧
        ∃ v, Reaches s.board s.cells (s.cells p) p v ∧ q ∈ neighbourPoints s.board v := by
  have h := floodAux_spec s.board s.cells (s.cells p)
    (fun q => decide (s.cells q ≠ s.cells p)) p [p] {p} ∅
    (by
      intro c hc
      rcases List.mem_cons.mp hc with rfl | hc
      · exact ⟨hp, rfl, Relation.ReflTransGen.refl⟩
      · exact absurd hc (List.not_mem_nil c))
    (by
      intro v hv
      rcases Finset.mem_singleton.mp hv with rfl
      exact ⟨hp, rfl, Relation.ReflTransGen.refl⟩)
    (Or.inl (Finset.mem_singleton_self p))
    (by
      intro v hv hvs
      rcases Finset.mem_singleton.mp hv with rfl
      exact absurd (List.mem_cons_self v []) hvs)
    (by
      rintro q _ ⟨v, hv, hvs, _⟩
      rcases Finset.mem_singleton.mp hv with rfl
      exact absurd (List.mem_cons_self v []) hvs)
    (by intro q hq; exact absurd hq (Finset.not_mem_empty q))
  rw [getGroup, h.2 q, decide_eq_true_eq]

theorem mem_getLiberties {s : GameState} {p : Point} (hp : InBounds s.board p)
    (hc : s.cells p ≠ FREE) (q : Point) :
    q ∈ getLiberties s p ↔
      s.cells q = FREE ∧
        ∃ v, Reaches s.board s.cells (s.cells p) p v ∧ q ∈ neighbourPoints s.board v := by
  have h := floodAux_spec s.board s.cells (s.cells p)
    (fun q => decide (s.cells q = FREE)) p [p] ∅ ∅
    (by
      intro c hcm
      rcases List.mem_cons.mp hcm with rfl | hcm
      · exact ⟨hp, rfl, Relation.ReflTransGen.refl⟩
      · exact absurd hcm (List.not_mem_nil c))
    (by intro v hv; exact absurd hv (Finset.not_mem_empty v))
    (Or.inr (List.mem_cons_self p []))
    (by intro v hv; exact absurd hv (Finset.not_mem_empty v))
    (by
      rintro q _ ⟨v, hv, _⟩
      exact absurd hv (Finset.not_mem_empty v))
    (by intro q hq; exact absurd hq (Finset.not_mem_empty q))
  rw [getLiberties, if_neg hc]
  rw [h.2 q, decide_eq_true_eq]

theorem getLiberties_free {s : GameState} {p : Point} (hc : s.cells p = FREE) :
    getLiberties s p = {p} := by
  rw [getLiberties, if_pos hc]

theorem self_mem_getGroup_fst {s : GameState} {p : Point} (hp : InBounds s.board p) :
    p ∈ (getGroup s p).1 :=
  (mem_getGroup_fst hp p).mpr Relation.ReflTransGen.refl

theorem getGroup_fst_colour {s : GameState} {p q : Point} (hp : InBounds s.board p)
    (hq : q ∈ (getGroup s p).1) : s.cells q = s.cells p :=
  Reaches.colour_eq rfl ((mem_getGroup_fst hp q).mp hq)

theorem getGroup_fst_inBounds {s : GameState} {p q : Point} (hp : InBounds s.board p)
    (hq : q ∈ (getGroup s p).1) : InBounds s.board q :=
  Reaches.inBounds hp ((mem_getGroup_fst hp q).mp hq)

/-- Two members of one group see the same group and border. -/
theorem getGroup_congr {s : GameState} {p r : Point} (hp : InBounds s.board p)
    (hr : r ∈ (getGroup s p).1) : getGroup s r = getGroup s p := by
  have hreach := (mem_getGroup_fst hp r).mp hr
  have hrc : s.cells r = s.cells p := Reaches.colour_eq rfl hreach
  have hrb : InBounds s.board r := Reaches.inBounds hp hreach
  have hiff : ∀ q, Reaches s.board s.cells (s.cells p) r q ↔
      Reaches s.board s.cells (s.cells p) p q := by
    intro q
    constructor
    · intro h; exact Relation.ReflTransGen.trans hreach h
    · intro h
      exact Relation.ReflTransGen.trans (Reaches.symm hp rfl hreach) h
  apply Prod.ext
  · apply Finset.ext
    intro q
    rw [mem_getGroup_fst hrb q, mem_getGroup_fst hp q, hrc, hiff]
  · apply Finset.ext
    intro q
    rw [mem_getGroup_snd hrb q, mem_getGroup_snd hp q, hrc]
    constructor
    · rintro ⟨h1, v, hv, hnbr⟩; exact ⟨h1, v, (hiff v).mp hv, hnbr⟩
    · rintro ⟨h1, v, hv, hnbr⟩; exact ⟨h1, v, (hiff v).mpr hv, hnbr⟩

/-!
## Evaluating the flood fill on concrete boards
-/

theorem getGroup_eq_fuel (s : GameState) (p : Point) (K : Nat)
    (h : (floodFuel s.board s.cells (s.cells p)
        (fun q => decide (s.cells q ≠ s.cells p)) K [p] {p} ∅).1 = []) :
    getGroup s p
      = (floodFuel s.board s.cells (s.cells p)
          (fun q => decide (s.cells q ≠ s.cells p)) K [p] {p} ∅).2 :=
  floodAux_eq_floodFuel s.board s.cells (s.cells p)
    (fun q => decide (s.cells q ≠ s.cells p)) K [p] {p} ∅ h

theorem getLiberties_eq_fuel (s : GameState) (p : Point) (K : Nat)
    (hc : s.cells p ≠ FREE)
    (h : (floodFuel s.board s.cells (s.cells p)
        (fun q => decide (s.cells q = FREE)) K [p] ∅ ∅).1 = []) :
    getLiberties s p
      = (floodFuel s.board s.cells (s.cells p)
          (fun q => decide (s.cells q = FREE)) K [p] ∅ ∅).2.2 := by
  rw [getLiberties, if_neg hc,
    floodAux_eq_floodFuel s.board s.cells (s.cells p)
      (fun q => decide (s.cells q = FREE)) K [p] ∅ ∅ h]

/-!
## Claim C6: `get_group` on an `Empty` point

The claim says the group is the singleton `{point}` with an empty border.
The source has no special case for `FREE` seeds: the flood fill explores the
whole maximal empty region and its border collects the adjacent stones.
-/

/-- A 2×2 board with a single black stone at `(1, 1)`; seed `(0, 0)` is free. -/
def stateC6 : GameState :=
  { board := { w := 2, h := 2 },
    cells := fun q => if q = ((1 : Int), (1 : Int)) then BLACK else FREE,
    turn := BLACK,
    score := fun _ => 0 }

/-- Counterexample to C6: on `stateC6`, the point `(0,0)` is free and in
bounds, yet `get_group` returns the three-cell empty region
`{(0,0), (1,0), (0,1)}` with border `{(1,1)}` — neither the singleton
`{(0,0)}` nor an empty border. -/
theorem C6_counterexample :
    stateC6.cells ((0 : Int), (0 : Int)) = FREE ∧
      InBounds stateC6.board ((0 : Int), (0 : Int)) ∧
      (getGroup stateC6 ((0 : Int), (0 : Int))).1 ≠ {((0 : Int), (0 : Int))} ∧
      (getGroup stateC6 ((0 : Int), (0 : Int))).2 ≠ (∅ : Finset Point) := by
  have h := getGroup_eq_fuel stateC6 ((0 : Int), (0 : Int)) 12 (by decide)
  refine ⟨rfl, by decide, ?_, ?_⟩ <;> rw [h] <;> decide

/-- C6 (amended): on an `Empty` in-bounds point, `get_group` returns the
maximal 4-connected `Empty` region containing the point (all cells reachable
from it through `FREE` cells), and the border is exactly the set of occupied
in-bounds cells adjacent to that region. -/
theorem C6_get_group_on_empty (s : GameState) (p : Point) (hp : InBounds s.board p)
    (hfree : s.cells p = FREE) :
    (∀ q, q ∈ (getGroup s p).1 ↔ Reaches s.board s.cells FREE p q) ∧
      (∀ q, q ∈ (getGroup s p).2 ↔
        s.cells q ≠ FREE ∧ ∃ v, Reaches s.board s.cells FREE p v ∧
          q ∈ neighbourPoints s.board v) := by
  constructor
  · intro q; rw [mem_getGroup_fst hp q, hfree]
  · intro q; rw [mem_getGroup_snd hp q, hfree]

/-- Witness for `C6_get_group_on_empty` at the concrete state `stateC6`. -/
theorem C6_witness :
    InBounds stateC6.board ((0 : Int), (0 : Int)) ∧
      stateC6.cells ((0 : Int), (0 : Int)) = FREE ∧
      ((∀ q, q ∈ (getGroup stateC6 ((0 : Int), (0 : Int))).1 ↔
          Reaches stateC6.board stateC6.cells FREE ((0 : Int), (0 : Int)) q) ∧
        (∀ q, q ∈ (getGroup stateC6 ((0 : Int), (0 : Int))).2 ↔
          stateC6.cells q ≠ FREE ∧
            ∃ v, Reaches stateC6.board stateC6.cells FREE ((0 : Int), (0 : Int)) v ∧
              q ∈ neighbourPoints stateC6.board v)) :=
  ⟨by decide, rfl,
    C6_get_group_on_empty stateC6 ((0 : Int), (0 : Int)) (by decide) rfl⟩

/-!
## The capture sweep of `take_stones`

`SweepInv s t m` relates a state `t` reached during the sweep that started
from `s` to the accumulated capture count `m`: the sweep only turns opposing
stones into `FREE` cells, credits exactly the removed stones to the mover,
and the count is the number of cells cleared so far.
-/

theorem countLiberties_of_free {t : GameState} {q : Point} (h : t.cells q = FREE) :
    countLiberties t q = 1 := by
  rw [countLiberties, getLiberties_free h, Finset.card_singleton]

theorem cells_ne_free_of_countLiberties_zero {t : GameState} {q : Point}
    (h : countLiberties t q = 0) : t.cells q ≠ FREE := by
  intro hf
  rw [countLiberties_of_free hf] at h
  exact one_ne_zero h

/-- Invariant of the capture sweep relative to its starting state. -/
def SweepInv (s t : GameState) (m : Nat) : Prop :=
  t.board = s.board ∧ t.turn = s.turn ∧
    (∀ q, t.cells q = s.cells q ∨
      (t.cells q = FREE ∧ s.cells q ≠ FREE ∧ s.cells q ≠ s.turn ∧ InBounds s.board q)) ∧
    t.score s.turn = s.score s.turn + m ∧
    (∀ c, c ≠ s.turn → t.score c = s.score c) ∧
    m = ((boardFinset s.board).filter (fun q => t.cells q = FREE ∧ s.cells q ≠ FREE)).card

theorem sweepInv_refl (s : GameState) : SweepInv s s 0 := by
  refine ⟨rfl, rfl, fun q => Or.inl rfl, rfl, fun _ _ => rfl, ?_⟩
  have : (boardFinset s.board).filter (fun q => s.cells q = FREE ∧ s.cells q ≠ FREE) = ∅ := by
    apply Finset.filter_false_of_mem
    rintro q _ ⟨h1, h2⟩
    exact h2 h1
  rw [this, Finset.card_empty]

/-- One capturing step of the sweep preserves the invariant. -/
theorem sweepInv_catch (s : GameState) {t : GameState} {m : Nat} (hInv : SweepInv s t m)
    {q : Point} (hq : InBounds s.board q) (hne : t.cells q ≠ t.turn)
    (hlib : countLiberties t q = 0) :
    SweepInv s (increaseScore (catchGroup t q).1 (catchGroup t q).2)
      (m + (catchGroup t q).2) := by
  obtain ⟨htb, htt, htc, hts, hto, htm⟩ := hInv
  have hqt : InBounds t.board q := htb ▸ hq
  have hqnf : t.cells q ≠ FREE := cells_ne_free_of_countLiberties_zero hlib
  have hmem_colour : ∀ r ∈ (getGroup t q).1, t.cells r = t.cells q :=
    fun r hr => getGroup_fst_colour hqt hr
  have hmem_bounds : ∀ r ∈ (getGroup t q).1, InBounds s.board r :=
    fun r hr => htb ▸ getGroup_fst_inBounds hqt hr
  have hmem_orig : ∀ r ∈ (getGroup t q).1,
      s.cells r = t.cells q ∧ s.cells r ≠ FREE ∧ s.cells r ≠ s.turn := by
    intro r hr
    have hcol := hmem_colour r hr
    rcases htc r with h | h
    · rw [h] at hcol
      refine ⟨hcol, ?_, ?_⟩
      · rw [hcol]; exact hqnf
      · rw [hcol, ← htt]; exact hne
    · exact absurd (hcol.symm.trans h.1) hqnf
  refine ⟨htb, htt, ?_, ?_, ?_, ?_⟩
  · -- cells: each cleared cell was an opposing stone
    intro r
    by_cases hr : r ∈ (getGroup t q).1
    · right
      obtain ⟨_, h2, h3⟩ := hmem_orig r hr
      refine ⟨?_, h2, h3, hmem_bounds r hr⟩
      simp only [increaseScore, catchGroup]
      rw [if_pos hr]
    · have : (increaseScore (catchGroup t q).1 (catchGroup t q).2).cells r = t.cells r := by
        simp only [increaseScore, catchGroup]
        rw [if_neg hr]
      rw [this]
      exact htc r
  · -- the mover's score grows by the group size
    have : (increaseScore (catchGroup t q).1 (catchGroup t q).2).score s.turn
        = t.score s.turn + (catchGroup t q).2 := by
      simp only [increaseScore, catchGroup]
      rw [if_pos (htt ▸ rfl : s.turn = t.turn)]
    rw [this, hts, Nat.add_assoc]
  · -- other colours keep their score
    intro c hc
    have : (increaseScore (catchGroup t q).1 (catchGroup t q).2).score c = t.score c := by
      simp only [increaseScore, catchGroup]
      rw [if_neg (htt ▸ hc : c ≠ t.turn)]
    rw [this]
    exact hto c hc
  · -- the count matches the cleared cells
    have hcells : ∀ r, (increaseScore (catchGroup t q).1 (catchGroup t q).2).cells r
        = if r ∈ (getGroup t q).1 then FREE else t.cells r := by
      intro r; simp only [increaseScore, catchGroup]
    have hN : (boardFinset s.board).filter
          (fun r => (increaseScore (catchGroup t q).1 (catchGroup t q).2).cells r = FREE ∧
            s.cells r ≠ FREE)
        = ((boardFinset s.board).filter (fun r => t.cells r = FREE ∧ s.cells r ≠ FREE))
          ∪ (getGroup t q).1 := by
      apply Finset.ext
      intro r
      rw [Finset.mem_union, Finset.mem_filter, Finset.mem_filter, hcells r]
      by_cases hr : r ∈ (getGroup t q).1
      · rw [if_pos hr]
        obtain ⟨_, h2, _⟩ := hmem_orig r hr
        simp [hr, h2, mem_boardFinset.mpr (hmem_bounds r hr)]
      · rw [if_neg hr]
        simp [hr]
    have hdisj : Disjoint
        ((boardFinset s.board).filter (fun r => t.cells r = FREE ∧ s.cells r ≠ FREE))
        (getGroup t q).1 := by
      rw [Finset.disjoint_left]
      intro r hr hrg
      rw [Finset.mem_filter] at hr
      have := hmem_colour r hrg
      rw [hr.2.1] at this
      exact hqnf this.symm
    rw [hN, Finset.card_union_of_disjoint hdisj, ← htm, catchGroup]

/-- The capture sweep maintains `SweepInv` over any worklist of in-bounds
points. -/
theorem sweep_foldl_inv (s : GameState) :
    ∀ (l : List Point), (∀ q ∈ l, InBounds s.board q) →
      ∀ (t : GameState) (m : Nat), SweepInv s t m →
        SweepInv s
          (l.foldl (fun st q =>
            if st.1.cells q ≠ st.1.turn ∧ countLiberties st.1 q = 0 then
              (increaseScore (catchGroup st.1 q).1 (catchGroup st.1 q).2,
                st.2 + (catchGroup st.1 q).2)
            else st) (t, m)).1
          ((l.foldl (fun st q =>
            if st.1.cells q ≠ st.1.turn ∧ countLiberties st.1 q = 0 then
              (increaseScore (catchGroup st.1 q).1 (catchGroup st.1 q).2,
                st.2 + (catchGroup st.1 q).2)
            else st) (t, m)).2) := by
  intro l
  induction l with
  | nil => intro _ t m h; exact h
  | cons q l ih =>
    intro hl t m hInv
    rw [List.foldl_cons]
    show SweepInv s
      (List.foldl _ (if t.cells q ≠ t.turn ∧ countLiberties t q = 0 then
        (increaseScore (catchGroup t q).1 (catchGroup t q).2, m + (catchGroup t q).2)
        else (t, m)) l).1 _
    by_cases hcond : t.cells q ≠ t.turn ∧ countLiberties t q = 0
    · rw [if_pos hcond]
      exact ih (fun r hr => hl r (List.mem_cons_of_mem q hr)) _ _
        (sweepInv_catch s hInv (hl q (List.mem_cons_self q l)) hcond.1 hcond.2)
    · rw [if_neg hcond]
      exact ih (fun r hr => hl r (List.mem_cons_of_mem q hr)) _ _ hInv

/-- Lemma that `take_stones` satisfies the sweep invariant relative to its input. -/
theorem takeStones_inv (s : GameState) (p : Point) :
    SweepInv s (takeStones s p).1 (takeStones s p).2 := by
  rw [takeStones]
  exact sweep_foldl_inv s (neighbourPoints s.board p)
    (fun q hq => inBounds_of_mem_neighbourPoints hq) s 0 (sweepInv_refl s)

theorem reaches_congr {b : Board} {cells1 cells2 : Point → Nat} {colour : Nat}
    (h : ∀ x, cells1 x = colour ↔ cells2 x = colour) {p q : Point} :
    Reaches b cells1 colour p q → Reaches b cells2 colour p q := by
  intro hr
  induction hr with
  | refl => exact Relation.ReflTransGen.refl
  | tail _ hstep ih => exact Relation.ReflTransGen.tail ih ⟨hstep.1, (h _).mp hstep.2⟩

/-- The sweep never touches the mover's stones (given the mover's colour is
not `FREE`). -/
theorem sweepInv_cells_turn_iff {s t : GameState} {m : Nat} (hInv : SweepInv s t m)
    (hτ : s.turn ≠ FREE) : ∀ x, t.cells x = s.turn ↔ s.cells x = s.turn := by
  intro x
  rcases hInv.2.2.1 x with h | h
  · rw [h]
  · constructor
    · intro hx
      exact absurd (h.1.symm.trans hx).symm hτ
    · intro hx
      exact absurd hx h.2.2.1

/-- Captures can only add liberties to the played stone's group: every liberty
it had before the sweep survives the sweep. -/
theorem getLiberties_subset_of_sweepInv {s t : GameState} {m : Nat} (hInv : SweepInv s t m)
    (hτ : s.turn ≠ FREE) {p : Point} (hin : InBounds s.board p)
    (hcp : s.cells p = s.turn) :
    getLiberties s p ⊆ getLiberties t p := by
  have htb := hInv.1
  have hciff := sweepInv_cells_turn_iff hInv hτ
  have htp : t.cells p = s.turn := (hciff p).mpr hcp
  have hsp_ne : s.cells p ≠ FREE := by rw [hcp]; exact hτ
  have htp_ne : t.cells p ≠ FREE := by rw [htp]; exact hτ
  have hint : InBounds t.board p := by rw [htb]; exact hin
  intro q hq
  rw [mem_getLiberties hin hsp_ne q] at hq
  obtain ⟨hqf, v, hv, hnbr⟩ := hq
  rw [mem_getLiberties hint htp_ne q, htb, htp]
  refine ⟨?_, v, ?_, hnbr⟩
  · rcases hInv.2.2.1 q with h | h
    · rw [h]; exact hqf
    · exact h.1
  · rw [hcp] at hv
    refine reaches_congr (fun x => (hciff x).symm) hv

/-!
## Claim C2: the failure cases of `make_move`
-/

/-- C2: `make_move` fails exactly on out-of-bounds points, occupied points,
and suicidal placements (for a state whose turn is one of the three colours,
as the `GameState` invariant of §3 guarantees), one error for each case, and
every failure leaves cells, scores and turn untouched. -/
theorem C2_make_move_failure (s : GameState) (p : Point) (hturn : s.turn ∈ TURNS) :
    ((makeMove s p).2 = Except.error MoveErr.badCoordinates ↔ ¬ InBounds s.board p) ∧
      ((makeMove s p).2 = Except.error MoveErr.occupied ↔
        InBounds s.board p ∧ s.cells p ≠ FREE) ∧
      ((makeMove s p).2 = Except.error MoveErr.suicide ↔
        InBounds s.board p ∧ s.cells p = FREE ∧
          countLiberties (setState s p s.turn) p = 0) ∧
      ((∃ n, (makeMove s p).2 = Except.ok n) ↔
        InBounds s.board p ∧ s.cells p = FREE ∧
          countLiberties (setState s p s.turn) p ≠ 0) ∧
      (∀ e, (makeMove s p).2 = Except.error e →
        (∀ q, (makeMove s p).1.cells q = s.cells q) ∧
          (∀ c, (makeMove s p).1.score c = s.score c) ∧
          (makeMove s p).1.turn = s.turn ∧ (makeMove s p).1.board = s.board) := by
  have hdict : ∃ t, dictTurns s.turn = some t := by
    simp only [TURNS, BLACK, GREY, WHITE, List.mem_cons, List.not_mem_nil, or_false]
      at hturn
    rcases hturn with h | h | h <;> rw [h] <;> exact ⟨_, rfl⟩
  obtain ⟨t, ht⟩ := hdict
  by_cases hin : InBounds s.board p
  · by_cases hfree : s.cells p = FREE
    · by_cases hsui : countLiberties (setState s p s.turn) p = 0
      · have hmove : makeMove s p
            = (setState (setState s p s.turn) p FREE, Except.error MoveErr.suicide) := by
          rw [makeMove, if_pos hin, if_pos hfree]
          simp [hsui]
        rw [hmove]
        refine ⟨iff_of_false (by simp) (fun h => h hin),
          iff_of_false (by simp) (fun h => h.2 hfree),
          iff_of_true rfl ⟨hin, hfree, hsui⟩,
          iff_of_false (by rintro ⟨n, h⟩; exact absurd h (by simp))
            (fun h => h.2.2 hsui), ?_⟩
        intro e _
        refine ⟨?_, fun c => rfl, rfl, rfl⟩
        intro q
        simp only [setState]
        by_cases hq : q = p
        · subst hq; simp [hfree]
        · simp [hq]
      · have hmove : makeMove s p
            = ({ (takeStones (setState s p s.turn) p).1 with turn := t },
                Except.ok (takeStones (setState s p s.turn) p).2) := by
          rw [makeMove, if_pos hin, if_pos hfree]
          simp [hsui, ht]
        rw [hmove]
        refine ⟨iff_of_false (by simp) (fun h => h hin),
          iff_of_false (by simp) (fun h => h.2 hfree),
          iff_of_false (by simp) (fun h => hsui h.2.2),
          iff_of_true ⟨_, rfl⟩ ⟨hin, hfree, hsui⟩, ?_⟩
        intro e he
        exact absurd he (by simp)
    · have hmove : makeMove s p = (s, Except.error MoveErr.occupied) := by
        rw [makeMove, if_pos hin, if_neg hfree]
      rw [hmove]
      exact ⟨iff_of_false (by simp) (fun h => h hin),
        iff_of_true rfl ⟨hin, hfree⟩,
        iff_of_false (by simp) (fun h => hfree h.2.1),
        iff_of_false (by rintro ⟨n, h⟩; exact absurd h (by simp)) (fun h => hfree h.2.1),
        fun e _ => ⟨fun q => rfl, fun c => rfl, rfl, rfl⟩⟩
  · have hmove : makeMove s p = (s, Except.error MoveErr.badCoordinates) := by
      rw [makeMove, if_neg hin]
    rw [hmove]
    exact ⟨iff_of_true rfl hin,
      iff_of_false (by simp) (fun h => hin h.1),
      iff_of_false (by simp) (fun h => hin h.1),
      iff_of_false (by rintro ⟨n, h⟩; exact absurd h (by simp)) (fun h => hin h.1),
      fun e _ => ⟨fun q => rfl, fun c => rfl, rfl, rfl⟩⟩

/-- Witness for `C2_make_move_failure`: on a fresh 1×1 board the only move is
a suicide, and the state survives unchanged. -/
theorem C2_witness :
    (initState { w := 1, h := 1 }).turn ∈ TURNS ∧
      ((makeMove (initState { w := 1, h := 1 }) ((0 : Int), (0 : Int))).2
          = Except.error MoveErr.badCoordinates ↔
        ¬ InBounds (initState { w := 1, h := 1 }).board ((0 : Int), (0 : Int))) ∧
      ((makeMove (initState { w := 1, h := 1 }) ((0 : Int), (0 : Int))).2
          = Except.error MoveErr.occupied ↔
        InBounds (initState { w := 1, h := 1 }).board ((0 : Int), (0 : Int)) ∧
          (initState { w := 1, h := 1 }).cells ((0 : Int), (0 : Int)) ≠ FREE) ∧
      ((makeMove (initState { w := 1, h := 1 }) ((0 : Int), (0 : Int))).2
          = Except.error MoveErr.suicide ↔
        InBounds (initState { w := 1, h := 1 }).board ((0 : Int), (0 : Int)) ∧
          (initState { w := 1, h := 1 }).cells ((0 : Int), (0 : Int)) = FREE ∧
            countLiberties
              (setState (initState { w := 1, h := 1 }) ((0 : Int), (0 : Int))
                (initState { w := 1, h := 1 }).turn) ((0 : Int), (0 : Int)) = 0) ∧
      ((∃ n, (makeMove (initState { w := 1, h := 1 }) ((0 : Int), (0 : Int))).2
          = Except.ok n) ↔
        InBounds (initState { w := 1, h := 1 }).board ((0 : Int), (0 : Int)) ∧
          (initState { w := 1, h := 1 }).cells ((0 : Int), (0 : Int)) = FREE ∧
            countLiberties
              (setState (initState { w := 1, h := 1 }) ((0 : Int), (0 : Int))
                (initState { w := 1, h := 1 }).turn) ((0 : Int), (0 : Int)) ≠ 0) ∧
      (∀ e, (makeMove (initState { w := 1, h := 1 }) ((0 : Int), (0 : Int))).2
          = Except.error e →
        (∀ q, (makeMove (initState { w := 1, h := 1 }) ((0 : Int), (0 : Int))).1.cells q
            = (initState { w := 1, h := 1 }).cells q) ∧
          (∀ c, (makeMove (initState { w := 1, h := 1 }) ((0 : Int), (0 : Int))).1.score c
              = (initState { w := 1, h := 1 }).score c) ∧
          (makeMove (initState { w := 1, h := 1 }) ((0 : Int), (0 : Int))).1.turn
              = (initState { w := 1, h := 1 }).turn ∧
          (makeMove (initState { w := 1, h := 1 }) ((0 : Int), (0 : Int))).1.board
              = (initState { w := 1, h := 1 }).board) :=
  ⟨by decide,
    C2_make_move_failure (initState { w := 1, h := 1 }) ((0 : Int), (0 : Int)) (by decide)⟩

/-!
## Claim C1: the success path of `make_move`
-/

theorem turn_ne_free_of_mem_TURNS {τ : Nat} (h : τ ∈ TURNS) : τ ≠ FREE := by
  simp only [TURNS, BLACK, GREY, WHITE, List.mem_cons, List.not_mem_nil, or_false] at h
  rcases h with h | h | h <;> rw [h] <;> simp [FREE]

theorem dictTurns_isSome_of_mem_TURNS {τ : Nat} (h : τ ∈ TURNS) :
    ∃ t, dictTurns τ = some t := by
  simp only [TURNS, BLACK, GREY, WHITE, List.mem_cons, List.not_mem_nil, or_false] at h
  rcases h with h | h | h <;> rw [h] <;> exact ⟨_, rfl⟩

/-- C1 (amended): a legal, non-suicidal move on a free in-bounds point
succeeds; it places the mover's stone, clears only opposing stones (those
captured by the source's sequential sweep over the four neighbours, whose
liberties are re-derived when each neighbour is examined), returns exactly the
number of cleared cells, credits exactly that number to the mover, leaves the
other scores alone, and rotates the turn to the cyclic successor. -/
theorem C1_make_move_success (s : GameState) (p : Point)
    (hin : InBounds s.board p) (hfree : s.cells p = FREE) (hturn : s.turn ∈ TURNS)
    (hns : countLiberties (setState s p s.turn) p ≠ 0) :
    ∃ s2 n, makeMove s p = (s2, Except.ok n) ∧
      s2.board = s.board ∧
      s2.cells p = s.turn ∧
      (∀ q, q ≠ p → s2.cells q = s.cells q ∨
        (s2.cells q = FREE ∧ s.cells q ≠ FREE ∧ s.cells q ≠ s.turn ∧
          InBounds s.board q)) ∧
      n = ((boardFinset s.board).filter
            (fun q => s2.cells q = FREE ∧ s.cells q ≠ FREE)).card ∧
      s2.score s.turn = s.score s.turn + n ∧
      (∀ c, c ≠ s.turn → s2.score c = s.score c) ∧
      dictTurns s.turn = some s2.turn := by
  obtain ⟨t, ht⟩ := dictTurns_isSome_of_mem_TURNS hturn
  have hτ0 : s.turn ≠ FREE := turn_ne_free_of_mem_TURNS hturn
  have hmove : makeMove s p
      = ({ (takeStones (setState s p s.turn) p).1 with turn := t },
          Except.ok (takeStones (setState s p s.turn) p).2) := by
    rw [makeMove, if_pos hin, if_pos hfree]
    simp [hns, ht]
  obtain ⟨htb, htt, htc, hts, hto, htm⟩ := takeStones_inv (setState s p s.turn) p
  have hs1p : (setState s p s.turn).cells p = s.turn := by
    simp [setState]
  have hs1q : ∀ q, q ≠ p → (setState s p s.turn).cells q = s.cells q := by
    intro q hq; simp [setState, hq]
  refine ⟨_, _, hmove, htb, ?_, ?_, ?_, ?_, ?_, ?_⟩
  · -- the played cell holds the mover's stone
    rcases htc p with h | h
    · rw [h, hs1p]
    · exact absurd hs1p h.2.2.1
  · -- all other changes clear opposing stones
    intro q hq
    rcases htc q with h | h
    · left; rw [h, hs1q q hq]
    · right
      rw [hs1q q hq] at h
      exact ⟨h.1, h.2.1, h.2.2.1, h.2.2.2⟩
  · -- the returned count is the number of cleared cells
    rw [htm]
    congr 1
    apply Finset.filter_congr
    intro q hq
    by_cases hqp : q = p
    · subst hqp
      rcases htc q with h | h
      · rw [h, hs1p, hfree]
        simp [Ne.symm hτ0, hτ0]
      · exact absurd hs1p h.2.2.1
    · rw [hs1q q hqp]
  · exact hts
  · exact hto
  · rw [ht]

/-- The body of the `take_stones` loop, named for stepwise evaluation. -/
def sweepStep (st : GameState × Nat) (q : Point) : GameState × Nat :=
  if st.1.cells q ≠ st.1.turn ∧ countLiberties st.1 q = 0 then
    (increaseScore (catchGroup st.1 q).1 (catchGroup st.1 q).2,
      st.2 + (catchGroup st.1 q).2)
  else st

theorem takeStones_eq_foldl (s : GameState) (p : Point) :
    takeStones s p = (neighbourPoints s.board p).foldl sweepStep (s, 0) := rfl

theorem sweepStep_skip {t : GameState} {m : Nat} {q : Point}
    (h : ¬(t.cells q ≠ t.turn ∧ countLiberties t q = 0)) : sweepStep (t, m) q = (t, m) :=
  if_neg h

theorem sweepStep_catch {t : GameState} {m : Nat} {q : Point}
    (h1 : t.cells q ≠ t.turn) (h2 : countLiberties t q = 0) :
    sweepStep (t, m) q
      = (increaseScore (catchGroup t q).1 (catchGroup t q).2,
          m + (catchGroup t q).2) :=
  if_pos ⟨h1, h2⟩

/-!
## Claim C1, counterexample

With three players, capturing one opposing group can hand a liberty back to a
second, differently-coloured opposing group that also had zero liberties right
after the placement; the sweep then keeps that second group on the board.
-/

/-- 3×3 board, `BLACK` to move at `(1,1)`:
grey stones at `(0,0), (0,1)`, a white stone at `(1,0)`, black stones at
`(0,2), (2,0)`; the rest is free. -/
def stateC1 : GameState :=
  { board := { w := 3, h := 3 },
    cells := fun q =>
      if q = ((0 : Int), (0 : Int)) then GREY
      else if q = ((0 : Int), (1 : Int)) then GREY
      else if q = ((1 : Int), (0 : Int)) then WHITE
      else if q = ((0 : Int), (2 : Int)) then BLACK
      else if q = ((2 : Int), (0 : Int)) then BLACK
      else FREE,
    turn := BLACK,
    score := fun _ => 0 }

/-- State `stateC1` with the move tentatively placed. -/
def stateC1Placed : GameState :=
  setState stateC1 ((1 : Int), (1 : Int)) stateC1.turn

/-- The state the sweep actually produces: the grey group is captured, the
zero-liberty white stone at `(1,0)` survives. -/
def stateC1After : GameState :=
  { board := { w := 3, h := 3 },
    cells := fun q =>
      if q ∈ ({((0 : Int), (1 : Int)), ((0 : Int), (0 : Int))} : Finset Point) then FREE
      else stateC1Placed.cells q,
    turn := BLACK,
    score := fun c => if c = BLACK then 2 else 0 }

theorem stateC1_group_grey :
    getGroup stateC1Placed ((0 : Int), (1 : Int))
      = (({((0 : Int), (1 : Int)), ((0 : Int), (0 : Int))} : Finset Point),
          ({((1 : Int), (1 : Int)), ((0 : Int), (2 : Int)),
            ((1 : Int), (0 : Int))} : Finset Point)) := by
  rw [getGroup_eq_fuel stateC1Placed ((0 : Int), (1 : Int)) 10 (by decide)]
  decide

theorem stateC1_sweep_capture :
    increaseScore (catchGroup stateC1Placed ((0 : Int), (1 : Int))).1
        (catchGroup stateC1Placed ((0 : Int), (1 : Int))).2
      = stateC1After := by
  have hg : (getGroup stateC1Placed ((0 : Int), (1 : Int))).1
      = ({((0 : Int), (1 : Int)), ((0 : Int), (0 : Int))} : Finset Point) := by
    rw [stateC1_group_grey]
  simp only [increaseScore, catchGroup, hg]
  refine congrArg₂ (fun (c : Point → Nat) (sc : Nat → Nat) =>
    GameState.mk { w := 3, h := 3 } c BLACK sc) rfl ?_
  funext c
  by_cases hc : c = BLACK
  · subst hc
    have : (({((0 : Int), (1 : Int)), ((0 : Int), (0 : Int))} : Finset Point)).card = 2 := by
      decide
    simp [stateC1Placed, setState, stateC1, this]
  · simp [stateC1Placed, setState, stateC1, hc]

theorem stateC1_takeStones :
    takeStones stateC1Placed ((1 : Int), (1 : Int)) = (stateC1After, 2) := by
  rw [takeStones_eq_foldl]
  have hnb : neighbourPoints stateC1Placed.board ((1 : Int), (1 : Int))
      = [((2 : Int), (1 : Int)), ((1 : Int), (2 : Int)),
          ((0 : Int), (1 : Int)), ((1 : Int), (0 : Int))] := by decide
  rw [hnb]
  rw [List.foldl_cons,
    sweepStep_skip (fun h => one_ne_zero
      ((countLiberties_of_free (by decide)).symm.trans h.2))]
  rw [List.foldl_cons,
    sweepStep_skip (fun h => one_ne_zero
      ((countLiberties_of_free (by decide)).symm.trans h.2))]
  have hlib0 : countLiberties stateC1Placed ((0 : Int), (1 : Int)) = 0 := by
    rw [countLiberties,
      getLiberties_eq_fuel stateC1Placed ((0 : Int), (1 : Int)) 10 (by decide) (by decide)]
    decide
  rw [List.foldl_cons, sweepStep_catch (by decide) hlib0, stateC1_sweep_capture]
  have hcard : (catchGroup stateC1Placed ((0 : Int), (1 : Int))).2 = 2 := by
    have hg : (getGroup stateC1Placed ((0 : Int), (1 : Int))).1
        = ({((0 : Int), (1 : Int)), ((0 : Int), (0 : Int))} : Finset Point) := by
      rw [stateC1_group_grey]
    rw [catchGroup]
    show (getGroup stateC1Placed ((0 : Int), (1 : Int))).1.card = 2
    rw [hg]
    decide
  rw [hcard]
  have hlib1 : countLiberties stateC1After ((1 : Int), (0 : Int)) = 1 := by
    rw [countLiberties,
      getLiberties_eq_fuel stateC1After ((1 : Int), (0 : Int)) 10 (by decide) (by decide)]
    decide
  rw [List.foldl_cons,
    sweepStep_skip (fun h => one_ne_zero (hlib1.symm.trans h.2)), List.foldl_nil]

theorem stateC1_makeMove :
    makeMove stateC1 ((1 : Int), (1 : Int))
      = ({ stateC1After with turn := GREY }, Except.ok 2) := by
  have hlib : countLiberties stateC1Placed ((1 : Int), (1 : Int)) = 2 := by
    rw [countLiberties,
      getLiberties_eq_fuel stateC1Placed ((1 : Int), (1 : Int)) 10 (by decide) (by decide)]
    decide
  rw [makeMove, if_pos (by decide), if_pos (by decide)]
  show (if countLiberties stateC1Placed ((1 : Int), (1 : Int)) = 0 then _ else _) = _
  rw [hlib]
  simp only [OfNat.ofNat_ne_zero, if_false]
  show (match dictTurns stateC1.turn with
    | some t => ({ (takeStones stateC1Placed ((1 : Int), (1 : Int))).1 with turn := t },
        Except.ok (takeStones stateC1Placed ((1 : Int), (1 : Int))).2)
    | none => ((takeStones stateC1Placed ((1 : Int), (1 : Int))).1,
        Except.error MoveErr.keyError)) = _
  rw [stateC1_takeStones]
  rfl

/-- Counterexample to C1 as stated: at `stateC1`, playing `(1,1)` satisfies
every premise of the claim; the white group at the 4-neighbour `(1,0)` has a
different colour and zero liberties recomputed after the placement, so the
claim demands its removal and a return value of 3 — but the move leaves the
white stone in place and returns 2 (the grey capture restored a white
liberty before the sweep reached it). -/
theorem C1_counterexample :
    InBounds stateC1.board ((1 : Int), (1 : Int)) ∧
      stateC1.cells ((1 : Int), (1 : Int)) = FREE ∧
      stateC1.turn ∈ TURNS ∧
      countLiberties stateC1Placed ((1 : Int), (1 : Int)) ≠ 0 ∧
      ((1 : Int), (0 : Int)) ∈ neighbourPoints stateC1.board ((1 : Int), (1 : Int)) ∧
      stateC1Placed.cells ((1 : Int), (0 : Int)) ≠ stateC1.turn ∧
      countLiberties stateC1Placed ((1 : Int), (0 : Int)) = 0 ∧
      (makeMove stateC1 ((1 : Int), (1 : Int))).1.cells ((1 : Int), (0 : Int)) = WHITE ∧
      (makeMove stateC1 ((1 : Int), (1 : Int))).2 = Except.ok 2 := by
  have hlib : countLiberties stateC1Placed ((1 : Int), (1 : Int)) = 2 := by
    rw [countLiberties,
      getLiberties_eq_fuel stateC1Placed ((1 : Int), (1 : Int)) 10 (by decide) (by decide)]
    decide
  have hlib0 : countLiberties stateC1Placed ((1 : Int), (0 : Int)) = 0 := by
    rw [countLiberties,
      getLiberties_eq_fuel stateC1Placed ((1 : Int), (0 : Int)) 10 (by decide) (by decide)]
    decide
  refine ⟨by decide, by decide, by decide, ?_, by decide, by decide, hlib0, ?_, ?_⟩
  · rw [hlib]; exact two_ne_zero
  · rw [stateC1_makeMove]; decide
  · rw [stateC1_makeMove]

/-- Witness for `C1_make_move_success` on a fresh 2×1 board: `BLACK` plays
`(0,0)`, keeping the liberty `(1,0)`. -/
theorem C1_witness :
    InBounds (initState { w := 2, h := 1 }).board ((0 : Int), (0 : Int)) ∧
      (initState { w := 2, h := 1 }).cells ((0 : Int), (0 : Int)) = FREE ∧
      (initState { w := 2, h := 1 }).turn ∈ TURNS ∧
      countLiberties
          (setState (initState { w := 2, h := 1 }) ((0 : Int), (0 : Int))
            (initState { w := 2, h := 1 }).turn) ((0 : Int), (0 : Int)) ≠ 0 ∧
      (∃ s2 n, makeMove (initState { w := 2, h := 1 }) ((0 : Int), (0 : Int))
          = (s2, Except.ok n) ∧
        dictTurns (initState { w := 2, h := 1 }).turn = some s2.turn) := by
  have hns : countLiberties
      (setState (initState { w := 2, h := 1 }) ((0 : Int), (0 : Int))
        (initState { w := 2, h := 1 }).turn) ((0 : Int), (0 : Int)) ≠ 0 := by
    rw [countLiberties,
      getLiberties_eq_fuel _ ((0 : Int), (0 : Int)) 10 (by decide) (by decide)]
    decide
  refine ⟨by decide, rfl, by decide, hns, ?_⟩
  obtain ⟨s2, n, hm, _, _, _, _, _, _, hd⟩ :=
    C1_make_move_success (initState { w := 2, h := 1 }) ((0 : Int), (0 : Int))
      (by decide) rfl (by decide) hns
  exact ⟨s2, n, hm, hd⟩

/-!
## Claim C3: suicide check before versus after the capture sweep

`makeMoveCaptureFirst` is the comparison algorithm from §4.2 of the
specification with the suicide check moved after the capture sweep (modelled
from the spec: steps 1–3, then step 5, then step 4, then steps 6–7 of `play`).
-/

def makeMoveCaptureFirst (s : GameState) (point : Point) : GameState × Except MoveErr Nat :=
  if InBounds s.board point then
    if s.cells point = FREE then
      let s1 := setState s point s.turn
      if countLiberties (takeStones s1 point).1 point = 0 then
        (setState (takeStones s1 point).1 point FREE, Except.error MoveErr.suicide)
      else
        match dictTurns s.turn with
        | some t =>
          ({ (takeStones s1 point).1 with turn := t }, Except.ok (takeStones s1 point).2)
        | none => ((takeStones s1 point).1, Except.error MoveErr.keyError)
    else (s, Except.error MoveErr.occupied)
  else (s, Except.error MoveErr.badCoordinates)

/-- C3 (amended): on a free, in-bounds point the implemented order (suicide
check before the sweep) fails with suicide on a superset of the pairs on
which the capture-first order fails, and whenever the implemented order
succeeds both orders return the identical state and capture count.  The
converse inclusion is false (see the counterexample): a placement whose own
group has zero liberties but which captures an adjacent opposing group is
rejected by the implemented order and accepted by the capture-first order. -/
theorem C3_suicide_order (s : GameState) (p : Point)
    (hin : InBounds s.board p) (hfree : s.cells p = FREE) (hturn : s.turn ∈ TURNS) :
    ((makeMoveCaptureFirst s p).2 = Except.error MoveErr.suicide →
      (makeMove s p).2 = Except.error MoveErr.suicide) ∧
      (∀ r n, makeMove s p = (r, Except.ok n) → makeMoveCaptureFirst s p = (r, Except.ok n)) := by
  obtain ⟨t, ht⟩ := dictTurns_isSome_of_mem_TURNS hturn
  have hτ0 : s.turn ≠ FREE := turn_ne_free_of_mem_TURNS hturn
  have hInv := takeStones_inv (setState s p s.turn) p
  have hsub : getLiberties (setState s p s.turn) p
      ⊆ getLiberties (takeStones (setState s p s.turn) p).1 p :=
    getLiberties_subset_of_sweepInv hInv hτ0 hin (by simp [setState])
  have hzero : countLiberties (takeStones (setState s p s.turn) p).1 p = 0 →
      countLiberties (setState s p s.turn) p = 0 := by
    intro h
    rw [countLiberties, Finset.card_eq_zero] at h ⊢
    rw [h, Finset.subset_empty] at hsub
    exact hsub
  constructor
  · intro halt
    by_cases h2 : countLiberties (takeStones (setState s p s.turn) p).1 p = 0
    · rw [makeMove, if_pos hin, if_pos hfree]
      simp [hzero h2]
    · exfalso
      rw [makeMoveCaptureFirst, if_pos hin, if_pos hfree] at halt
      simp only [h2, if_false, ht] at halt
      exact absurd halt (by simp)
  · intro r n hok
    rw [makeMove, if_pos hin, if_pos hfree] at hok
    by_cases h1 : countLiberties (setState s p s.turn) p = 0
    · simp only [h1, if_true] at hok
      have := congrArg Prod.snd hok
      exact absurd this.symm (by simp)
    · simp only [h1, if_false, ht] at hok
      have h2 : countLiberties (takeStones (setState s p s.turn) p).1 p ≠ 0 :=
        fun h => h1 (hzero h)
      rw [makeMoveCaptureFirst, if_pos hin, if_pos hfree]
      simp only [h2, if_false, ht]
      exact hok

/-- 4×1 board, `BLACK` to move at `(2,0)`: grey at `(0,0)`, white at `(1,0)`,
black at `(3,0)`.  The placed black pair `{(2,0),(3,0)}` has no liberties
until the white stone is captured. -/
def stateC3 : GameState :=
  { board := { w := 4, h := 1 },
    cells := fun q =>
      if q = ((0 : Int), (0 : Int)) then GREY
      else if q = ((1 : Int), (0 : Int)) then WHITE
      else if q = ((3 : Int), (0 : Int)) then BLACK
      else FREE,
    turn := BLACK,
    score := fun _ => 0 }

/-- State `stateC3` with the move tentatively placed at `(2,0)`. -/
def stateC3Placed : GameState :=
  setState stateC3 ((2 : Int), (0 : Int)) stateC3.turn

/-- What the capture-first order produces before rotating the turn: the white
stone is captured and the mover scores one point. -/
def stateC3After : GameState :=
  { board := { w := 4, h := 1 },
    cells := fun q =>
      if q ∈ ({((1 : Int), (0 : Int))} : Finset Point) then FREE
      else stateC3Placed.cells q,
    turn := BLACK,
    score := fun c => if c = BLACK then 1 else 0 }

theorem stateC3_group_white :
    getGroup stateC3Placed ((1 : Int), (0 : Int))
      = (({((1 : Int), (0 : Int))} : Finset Point),
          ({((0 : Int), (0 : Int)), ((2 : Int), (0 : Int))} : Finset Point)) := by
  rw [getGroup_eq_fuel stateC3Placed ((1 : Int), (0 : Int)) 10 (by decide)]
  decide

theorem stateC3_sweep_capture :
    increaseScore (catchGroup stateC3Placed ((1 : Int), (0 : Int))).1
        (catchGroup stateC3Placed ((1 : Int), (0 : Int))).2
      = stateC3After := by
  have hg : (getGroup stateC3Placed ((1 : Int), (0 : Int))).1
      = ({((1 : Int), (0 : Int))} : Finset Point) := by
    rw [stateC3_group_white]
  simp only [increaseScore, catchGroup, hg]
  refine congrArg₂ (fun (c : Point → Nat) (sc : Nat → Nat) =>
    GameState.mk { w := 4, h := 1 } c BLACK sc) rfl ?_
  funext c
  by_cases hc : c = BLACK
  · subst hc
    simp [stateC3Placed, setState, stateC3]
  · simp [stateC3Placed, setState, stateC3, hc]

theorem stateC3_takeStones :
    takeStones stateC3Placed ((2 : Int), (0 : Int)) = (stateC3After, 1) := by
  rw [takeStones_eq_foldl]
  have hnb : neighbourPoints stateC3Placed.board ((2 : Int), (0 : Int))
      = [((3 : Int), (0 : Int)), ((1 : Int), (0 : Int))] := by decide
  rw [hnb]
  rw [List.foldl_cons, sweepStep_skip (fun h => h.1 (by decide))]
  have hlib0 : countLiberties stateC3Placed ((1 : Int), (0 : Int)) = 0 := by
    rw [countLiberties,
      getLiberties_eq_fuel stateC3Placed ((1 : Int), (0 : Int)) 10 (by decide) (by decide)]
    decide
  rw [List.foldl_cons, sweepStep_catch (by decide) hlib0, stateC3_sweep_capture]
  have hcard : (catchGroup stateC3Placed ((1 : Int), (0 : Int))).2 = 1 := by
    have hg : (getGroup stateC3Placed ((1 : Int), (0 : Int))).1
        = ({((1 : Int), (0 : Int))} : Finset Point) := by
      rw [stateC3_group_white]
    rw [catchGroup]
    show (getGroup stateC3Placed ((1 : Int), (0 : Int))).1.card = 1
    rw [hg]
    decide
  rw [hcard, List.foldl_nil]

/-- Counterexample to C3 as stated: at `stateC3`, playing the free in-bounds
point `(2,0)` fails with suicide under the implemented order but succeeds
(capturing one white stone) under the capture-first order, so the two orders
do not fail on the same `(state, point)` pairs. -/
theorem C3_counterexample :
    InBounds stateC3.board ((2 : Int), (0 : Int)) ∧
      stateC3.cells ((2 : Int), (0 : Int)) = FREE ∧
      stateC3.turn ∈ TURNS ∧
      (makeMove stateC3 ((2 : Int), (0 : Int))).2 = Except.error MoveErr.suicide ∧
      (makeMoveCaptureFirst stateC3 ((2 : Int), (0 : Int))).2 = Except.ok 1 := by
  have hlib : countLiberties stateC3Placed ((2 : Int), (0 : Int)) = 0 := by
    rw [countLiberties,
      getLiberties_eq_fuel stateC3Placed ((2 : Int), (0 : Int)) 10 (by decide) (by decide)]
    decide
  have hmv : makeMove stateC3 ((2 : Int), (0 : Int))
      = (setState (setState stateC3 ((2 : Int), (0 : Int)) stateC3.turn)
          ((2 : Int), (0 : Int)) FREE, Except.error MoveErr.suicide) := by
    rw [makeMove, if_pos (by decide), if_pos (by decide)]
    show (if countLiberties stateC3Placed ((2 : Int), (0 : Int)) = 0 then _ else _) = _
    rw [hlib]
    simp
  have halt : makeMoveCaptureFirst stateC3 ((2 : Int), (0 : Int))
      = ({ stateC3After with turn := GREY }, Except.ok 1) := by
    rw [makeMoveCaptureFirst, if_pos (by decide), if_pos (by decide),
      show setState stateC3 ((2 : Int), (0 : Int)) stateC3.turn = stateC3Placed from rfl]
    dsimp only
    rw [stateC3_takeStones]
    have hlib1 : countLiberties ((stateC3After, 1) : GameState × Nat).1
        ((2 : Int), (0 : Int)) = 1 := by
      show countLiberties stateC3After ((2 : Int), (0 : Int)) = 1
      rw [countLiberties,
        getLiberties_eq_fuel stateC3After ((2 : Int), (0 : Int)) 10 (by decide) (by decide)]
      decide
    rw [hlib1]
    simp only [OfNat.ofNat_ne_zero, if_false]
    rfl
  refine ⟨by decide, by decide, by decide, ?_, ?_⟩
  · rw [hmv]
  · rw [halt]

/-- Witness for `C3_suicide_order` on a fresh 2×1 board at `(0,0)`. -/
theorem C3_witness :
    InBounds (initState { w := 2, h := 1 }).board ((0 : Int), (0 : Int)) ∧
      (initState { w := 2, h := 1 }).cells ((0 : Int), (0 : Int)) = FREE ∧
      (initState { w := 2, h := 1 }).turn ∈ TURNS ∧
      (((makeMoveCaptureFirst (initState { w := 2, h := 1 }) ((0 : Int), (0 : Int))).2
            = Except.error MoveErr.suicide →
          (makeMove (initState { w := 2, h := 1 }) ((0 : Int), (0 : Int))).2
            = Except.error MoveErr.suicide) ∧
        (∀ r n, makeMove (initState { w := 2, h := 1 }) ((0 : Int), (0 : Int))
            = (r, Except.ok n) →
          makeMoveCaptureFirst (initState { w := 2, h := 1 }) ((0 : Int), (0 : Int))
            = (r, Except.ok n))) :=
  ⟨by decide, rfl, by decide,
    C3_suicide_order (initState { w := 2, h := 1 }) ((0 : Int), (0 : Int))
      (by decide) rfl (by decide)⟩

/-!
## Claims C4 and C10: territory scoring
-/

theorem mem_freePointsList {s : GameState} {q : Point} :
    q ∈ freePointsList s ↔ InBounds s.board q ∧ s.cells q = FREE := by
  obtain ⟨x, y⟩ := q
  rw [freePointsList, List.mem_filter]
  simp only [List.mem_flatMap, List.mem_map, List.mem_range, decide_eq_true_eq]
  constructor
  · rintro ⟨⟨a, ha, b, hb, h⟩, hfree⟩
    obtain ⟨h1, h2⟩ := Prod.mk.injEq .. ▸ h
    exact ⟨⟨by omega, by omega, by omega, by omega⟩, hfree⟩
  · rintro ⟨⟨h1, h2, h3, h4⟩, hfree⟩
    refine ⟨⟨x.toNat, by omega, y.toNat, by omega, by simp; omega⟩, hfree⟩

/-- The free points whose whole empty region is bordered only by `colour`:
the union of the territory regions of that colour.  Since distinct maximal
empty regions are disjoint, its cardinality is the sum of their sizes. -/
def territoryFinset (s : GameState) (colour : Nat) : Finset Point :=
  (boardFinset s.board).filter
    (fun p => s.cells p = FREE ∧ ∀ q ∈ (getGroup s p).2, s.cells q = colour)

theorem mem_territoryFinset {s : GameState} {colour : Nat} {p : Point} :
    p ∈ territoryFinset s colour ↔
      InBounds s.board p ∧ s.cells p = FREE ∧
        ∀ q ∈ (getGroup s p).2, s.cells q = colour := by
  rw [territoryFinset, Finset.mem_filter, mem_boardFinset]

/-- Correctness of the visited-list walk of `take_territory`: starting from a
seen set that is a union of empty regions and a count matching the territory
already seen, the walk ends having seen every processed point and counts
exactly the territory inside the final seen set. -/
theorem territory_foldl (s : GameState) (colour : Nat) :
    ∀ (l : List Point), (∀ q ∈ l, InBounds s.board q ∧ s.cells q = FREE) →
      ∀ (vis : Finset Point) (n : Nat),
        (∀ v ∈ vis, ∀ q, Reaches s.board s.cells FREE v q → q ∈ vis) →
        n = (territoryFinset s colour ∩ vis).card →
        (∀ q ∈ l, q ∈ (l.foldl
            (fun (st : Finset Point × Nat) point =>
              if point ∉ st.1 then
                (st.1 ∪ (getGroup s point).1,
                  if ∀ q ∈ (getGroup s point).2, s.cells q = colour then
                    st.2 + (getGroup s point).1.card
                  else st.2)
              else st) (vis, n)).1) ∧
          vis ⊆ (l.foldl
            (fun (st : Finset Point × Nat) point =>
              if point ∉ st.1 then
                (st.1 ∪ (getGroup s point).1,
                  if ∀ q ∈ (getGroup s point).2, s.cells q = colour then
                    st.2 + (getGroup s point).1.card
                  else st.2)
              else st) (vis, n)).1 ∧
          (l.foldl
            (fun (st : Finset Point × Nat) point =>
              if point ∉ st.1 then
                (st.1 ∪ (getGroup s point).1,
                  if ∀ q ∈ (getGroup s point).2, s.cells q = colour then
                    st.2 + (getGroup s point).1.card
                  else st.2)
              else st) (vis, n)).2
            = (territoryFinset s colour ∩ (l.foldl
                (fun (st : Finset Point × Nat) point =>
                  if point ∉ st.1 then
                    (st.1 ∪ (getGroup s point).1,
                      if ∀ q ∈ (getGroup s point).2, s.cells q = colour then
                        st.2 + (getGroup s point).1.card
                      else st.2)
                  else st) (vis, n)).1).card := by
  intro l
  induction l with
  | nil =>
    intro _ vis n _ hn
    exact ⟨fun q hq => absurd hq (List.not_mem_nil q), fun q hq => hq, hn⟩
  | cons pt l ih =>
    intro hl vis n hclosed hn
    obtain ⟨hptb, hptf⟩ := hl pt (List.mem_cons_self pt l)
    rw [List.foldl_cons]
    by_cases hvis : pt ∈ vis
    · dsimp only
      rw [if_neg (not_not_intro hvis)]
      obtain ⟨h1, h2, h3⟩ := ih (fun q hq => hl q (List.mem_cons_of_mem pt hq))
        vis n hclosed hn
      refine ⟨?_, h2, h3⟩
      intro q hq
      rcases List.mem_cons.mp hq with rfl | hq
      · exact h2 hvis
      · exact h1 q hq
    · -- a new empty region is explored
      have hreach_iff : ∀ q, q ∈ (getGroup s pt).1 ↔
          Reaches s.board s.cells FREE pt q := by
        intro q
        rw [mem_getGroup_fst hptb q, hptf]
      have hg_free : ∀ m ∈ (getGroup s pt).1, InBounds s.board m ∧ s.cells m = FREE := by
        intro m hm
        exact ⟨getGroup_fst_inBounds hptb hm, (getGroup_fst_colour hptb hm).trans hptf⟩
      have hg_vis : ∀ m ∈ (getGroup s pt).1, m ∉ vis := by
        intro m hm hmv
        have hr : Reaches s.board s.cells FREE pt m := (hreach_iff m).mp hm
        have hback : Reaches s.board s.cells FREE m pt := Reaches.symm hptb hptf hr
        exact hvis (hclosed m hmv pt hback)
      have hclosed' : ∀ v ∈ vis ∪ (getGroup s pt).1, ∀ q,
          Reaches s.board s.cells FREE v q → q ∈ vis ∪ (getGroup s pt).1 := by
        intro v hv q hq
        rcases Finset.mem_union.mp hv with hv | hv
        · exact Finset.mem_union_left _ (hclosed v hv q hq)
        · refine Finset.mem_union_right _ ?_
          rw [hreach_iff]
          exact Relation.ReflTransGen.trans ((hreach_iff v).mp hv) hq
      have hdisj : Disjoint (territoryFinset s colour ∩ vis) (getGroup s pt).1 := by
        rw [Finset.disjoint_right]
        intro m hm hmv
        exact hg_vis m hm (Finset.mem_of_mem_inter_right hmv)
      by_cases hqual : ∀ q ∈ (getGroup s pt).2, s.cells q = colour
      · -- the whole region is territory of `colour`
        have hsub : (getGroup s pt).1 ⊆ territoryFinset s colour := by
          intro m hm
          rw [mem_territoryFinset]
          obtain ⟨hmb, hmf⟩ := hg_free m hm
          refine ⟨hmb, hmf, ?_⟩
          rw [getGroup_congr hptb hm]
          exact hqual
        have hinter : territoryFinset s colour ∩ (vis ∪ (getGroup s pt).1)
            = (territoryFinset s colour ∩ vis) ∪ (getGroup s pt).1 := by
          rw [Finset.inter_union_distrib_left,
            Finset.inter_eq_right.mpr hsub]
        have hn' : n + (getGroup s pt).1.card
            = (territoryFinset s colour ∩ (vis ∪ (getGroup s pt).1)).card := by
          rw [hinter, Finset.card_union_of_disjoint hdisj, hn]
        dsimp only
        rw [if_pos hvis, if_pos hqual]
        obtain ⟨h1, h2, h3⟩ := ih (fun q hq => hl q (List.mem_cons_of_mem pt hq))
          (vis ∪ (getGroup s pt).1) (n + (getGroup s pt).1.card) hclosed' hn'
        refine ⟨?_, fun q hq => h2 (Finset.mem_union_left _ hq), h3⟩
        intro q hq
        rcases List.mem_cons.mp hq with rfl | hq
        · exact h2 (Finset.mem_union_right _ (self_mem_getGroup_fst hptb))
        · exact h1 q hq
      · -- the region touches another colour: no points scored
        have hsub : ∀ m ∈ (getGroup s pt).1, m ∉ territoryFinset s colour := by
          intro m hm hmt
          rw [mem_territoryFinset] at hmt
          apply hqual
          rw [← getGroup_congr hptb hm]
          exact hmt.2.2
        have hinter : territoryFinset s colour ∩ (vis ∪ (getGroup s pt).1)
            = territoryFinset s colour ∩ vis := by
          rw [Finset.inter_union_distrib_left]
          have : territoryFinset s colour ∩ (getGroup s pt).1 = ∅ := by
            rw [Finset.eq_empty_iff_forall_not_mem]
            intro m hm
            exact hsub m (Finset.mem_of_mem_inter_right hm)
              (Finset.mem_of_mem_inter_left hm)
          rw [this, Finset.union_empty]
        have hn' : n = (territoryFinset s colour ∩ (vis ∪ (getGroup s pt).1)).card := by
          rw [hinter, hn]
        dsimp only
        rw [if_pos hvis, if_neg hqual]
        obtain ⟨h1, h2, h3⟩ := ih (fun q hq => hl q (List.mem_cons_of_mem pt hq))
          (vis ∪ (getGroup s pt).1) n hclosed' hn'
        refine ⟨?_, fun q hq => h2 (Finset.mem_union_left _ hq), h3⟩
        intro q hq
        rcases List.mem_cons.mp hq with rfl | hq
        · exact h2 (Finset.mem_union_right _ (self_mem_getGroup_fst hptb))
        · exact h1 q hq

/-- The total the `take_territory` walk accumulates is exactly the size of the
colour's territory. -/
theorem takeTerritory_total (s : GameState) (colour : Nat) :
    ((freePointsList s).foldl
        (fun (st : Finset Point × Nat) point =>
          if point ∉ st.1 then
            (st.1 ∪ (getGroup s point).1,
              if ∀ q ∈ (getGroup s point).2, s.cells q = colour then
                st.2 + (getGroup s point).1.card
              else st.2)
          else st) (∅, 0)).2
      = (territoryFinset s colour).card := by
  obtain ⟨h1, _, h3⟩ := territory_foldl s colour (freePointsList s)
    (fun q hq => mem_freePointsList.mp hq) ∅ 0
    (fun v hv => absurd hv (Finset.not_mem_empty v))
    (by rw [Finset.inter_empty, Finset.card_empty])
  rw [h3]
  congr 1
  rw [Finset.inter_eq_left]
  intro t ht
  rw [mem_territoryFinset] at ht
  exact h1 t (mem_freePointsList.mpr ⟨ht.1, ht.2.1⟩)

/-- C4: `take_territory(colour)` adds to `score[colour]` exactly the number
of free points whose whole empty region is bordered only by `colour` — that
is, the sum of the sizes of the maximal empty regions all of whose border
cells hold `colour`, each region counted once (the regions are disjoint, so
the sum of their sizes is the size of their union) — and changes nothing
else: no cell, not the turn, and no other colour's score. -/
theorem C4_take_territory (s : GameState) (colour : Nat) (_hc : colour ∈ TURNS) :
    (takeTerritory s colour).score colour
        = s.score colour + (territoryFinset s colour).card ∧
      (∀ p, p ∈ territoryFinset s colour ↔
        InBounds s.board p ∧ s.cells p = FREE ∧
          ∀ q, (s.cells q ≠ FREE ∧
              ∃ v, Reaches s.board s.cells FREE p v ∧ q ∈ neighbourPoints s.board v) →
            s.cells q = colour) ∧
      (∀ c2, c2 ≠ colour → (takeTerritory s colour).score c2 = s.score c2) ∧
      (∀ q, (takeTerritory s colour).cells q = s.cells q) ∧
      (takeTerritory s colour).turn = s.turn ∧
      (takeTerritory s colour).board = s.board := by
  refine ⟨?_, ?_, ?_, fun q => rfl, rfl, rfl⟩
  · show (if colour = colour then _ else _) = _
    rw [if_pos rfl, takeTerritory_total]
  · intro p
    rw [mem_territoryFinset]
    constructor
    · rintro ⟨hb, hf, hq⟩
      refine ⟨hb, hf, ?_⟩
      intro q hcond
      apply hq
      rw [mem_getGroup_snd hb q, hf]
      exact hcond
    · rintro ⟨hb, hf, hq⟩
      refine ⟨hb, hf, ?_⟩
      intro q hmem
      rw [mem_getGroup_snd hb q, hf] at hmem
      exact hq q hmem
  · intro c2 hc2
    show (if c2 = colour then _ else _) = _
    rw [if_neg hc2]

/-- Witness for `C4_take_territory` on a fresh 1×1 board scoring `BLACK`. -/
theorem C4_witness :
    BLACK ∈ TURNS ∧
      ((takeTerritory (initState { w := 1, h := 1 }) BLACK).score BLACK
          = (initState { w := 1, h := 1 }).score BLACK
            + (territoryFinset (initState { w := 1, h := 1 }) BLACK).card ∧
        (∀ p, p ∈ territoryFinset (initState { w := 1, h := 1 }) BLACK ↔
          InBounds (initState { w := 1, h := 1 }).board p ∧
            (initState { w := 1, h := 1 }).cells p = FREE ∧
            ∀ q, ((initState { w := 1, h := 1 }).cells q ≠ FREE ∧
                ∃ v, Reaches (initState { w := 1, h := 1 }).board
                    (initState { w := 1, h := 1 }).cells FREE p v ∧
                  q ∈ neighbourPoints (initState { w := 1, h := 1 }).board v) →
              (initState { w := 1, h := 1 }).cells q = BLACK) ∧
        (∀ c2, c2 ≠ BLACK →
          (takeTerritory (initState { w := 1, h := 1 }) BLACK).score c2
            = (initState { w := 1, h := 1 }).score c2) ∧
        (∀ q, (takeTerritory (initState { w := 1, h := 1 }) BLACK).cells q
            = (initState { w := 1, h := 1 }).cells q) ∧
        (takeTerritory (initState { w := 1, h := 1 }) BLACK).turn
            = (initState { w := 1, h := 1 }).turn ∧
        (takeTerritory (initState { w := 1, h := 1 }) BLACK).board
            = (initState { w := 1, h := 1 }).board) :=
  ⟨by decide, C4_take_territory (initState { w := 1, h := 1 }) BLACK (by decide)⟩

/-- C10: on a board whose every in-bounds cell is `Empty`, the single maximal
empty region has an empty border, so the all-border condition holds vacuously
and `take_territory(colour)` credits the whole board area `w * h`. -/
theorem C10_take_territory_all_free (s : GameState) (colour : Nat) (_hc : colour ∈ TURNS)
    (hfree : ∀ q, InBounds s.board q → s.cells q = FREE) :
    (takeTerritory s colour).score colour = s.score colour + s.board.w * s.board.h := by
  have hterr : territoryFinset s colour = boardFinset s.board := by
    apply Finset.ext
    intro p
    rw [mem_territoryFinset, mem_boardFinset]
    constructor
    · rintro ⟨hb, _, _⟩; exact hb
    · intro hb
      refine ⟨hb, hfree p hb, ?_⟩
      intro q hq
      rw [mem_getGroup_snd hb q] at hq
      obtain ⟨hne, v, hv, hnbr⟩ := hq
      exact absurd (hfree q (inBounds_of_mem_neighbourPoints hnbr))
        (by rw [hfree p hb] at hne; exact hne)
  have hscore : (takeTerritory s colour).score colour
      = s.score colour + (territoryFinset s colour).card := by
    show (if colour = colour then _ else _) = _
    rw [if_pos rfl, takeTerritory_total]
  rw [hscore, hterr, card_boardFinset]

/-- Witness for `C10_take_territory_all_free`: a fresh 2×2 board, scoring
`GREY`, gains the full four points. -/
theorem C10_witness :
    GREY ∈ TURNS ∧
      (∀ q, InBounds (initState { w := 2, h := 2 }).board q →
        (initState { w := 2, h := 2 }).cells q = FREE) ∧
      (takeTerritory (initState { w := 2, h := 2 }) GREY).score GREY
        = (initState { w := 2, h := 2 }).score GREY
          + (initState { w := 2, h := 2 }).board.w
            * (initState { w := 2, h := 2 }).board.h :=
  ⟨by decide, fun q _ => rfl,
    C10_take_territory_all_free (initState { w := 2, h := 2 }) GREY (by decide)
      (fun q _ => rfl)⟩

/-!
## Claim C7: score monotonicity

The operations available during play (`make_move`, `next_turn`,
`take_territory`, `catch_group`) — everything except the explicit correction
`set_score` — only ever add to a colour's score.
-/

/-- The operations quantified over by the claim. -/
inductive Op where
  | move : Point → Op
  | pass : Op
  | territory : Nat → Op
  | capture : Point → Op

/-- Applying one operation to a state (`make_move` keeps the state Python
leaves behind whether or not it raises; `catch_group` drops the returned
size, as a bare call does). -/
def applyOp (s : GameState) : Op → GameState
  | Op.move p => (makeMove s p).1
  | Op.pass => nextTurn s
  | Op.territory c => takeTerritory s c
  | Op.capture p => (catchGroup s p).1

/-- Applying a whole sequence of operations in order. -/
def applyOps (s : GameState) (l : List Op) : GameState :=
  l.foldl applyOp s

theorem sweepInv_score_le {s t : GameState} {m : Nat} (hInv : SweepInv s t m) (c : Nat) :
    s.score c ≤ t.score c := by
  by_cases hc : c = s.turn
  · subst hc
    rw [hInv.2.2.2.1]
    exact Nat.le_add_right _ _
  · rw [hInv.2.2.2.2.1 c hc]

/-- One operation never decreases any score. -/
theorem applyOp_score_le (s : GameState) (op : Op) (c : Nat) :
    s.score c ≤ (applyOp s op).score c := by
  cases op with
  | move p =>
    show s.score c ≤ (makeMove s p).1.score c
    rw [makeMove]
    by_cases hin : InBounds s.board p
    · rw [if_pos hin]
      by_cases hfree : s.cells p = FREE
      · rw [if_pos hfree]
        by_cases hsui : countLiberties (setState s p s.turn) p = 0
        · simp only [hsui, if_true]
          exact Nat.le_refl _
        · simp only [hsui, if_false]
          have hle : s.score c ≤ (takeStones (setState s p s.turn) p).1.score c :=
            sweepInv_score_le (takeStones_inv (setState s p s.turn) p) c
          cases hdt : dictTurns s.turn with
          | some t => exact hle
          | none => exact hle
      · rw [if_neg hfree]
    · rw [if_neg hin]
  | pass =>
    show s.score c ≤ (nextTurn s).score c
    rw [nextTurn]
    cases dictTurns s.turn with
    | some t => exact Nat.le_refl _
    | none => exact Nat.le_refl _
  | territory col =>
    show s.score c ≤ (takeTerritory s col).score c
    show s.score c ≤ (if c = col then _ else _)
    by_cases hc : c = col
    · rw [if_pos hc]
      subst hc
      exact Nat.le_add_right _ _
    · rw [if_neg hc]
  | capture p => exact Nat.le_refl _

/-- C7: along any sequence of `make_move` / `next_turn` (pass) /
`take_territory` / `catch_group` operations, every colour's score is
monotonically non-decreasing. -/
theorem C7_score_monotone (l : List Op) (s : GameState) (c : Nat) :
    s.score c ≤ (applyOps s l).score c := by
  induction l generalizing s with
  | nil => exact Nat.le_refl _
  | cons op l ih =>
    rw [applyOps, List.foldl_cons]
    exact Nat.le_trans (applyOp_score_le s op c) (ih (applyOp s op))

/-!
## Claim C8: the fallback tier's filter in `CleverVirtualPlayer`

The source tests `point not in point not in forbidden_points`.  Python parses
chained comparisons, so this is
`(point not in point) and (point not in forbidden_points)`; the values are
modelled structurally (a coordinate is a two-tuple of ints, `==` across
`int`/`tuple` is `False`), which makes the first conjunct always true.
-/

/-- A Python value as used by the players: an int or a pair of values. -/
inductive PyVal where
  | intV : Int → PyVal
  | pairV : PyVal → PyVal → PyVal
deriving DecidableEq

/-- Python `x in (a, b)` for a two-tuple: `x == a or x == b`. -/
def pyInPair (x a b : PyVal) : Prop := x = a ∨ x = b

/-- Python `x in l` for a list of values. -/
def pyInList (x : PyVal) (l : List PyVal) : Prop := x ∈ l

instance (x a b : PyVal) : Decidable (pyInPair x a b) := by
  unfold pyInPair; infer_instance

instance (x : PyVal) (l : List PyVal) : Decidable (pyInList x l) := by
  unfold pyInList; infer_instance

/-- The tuple value of a board coordinate. -/
def pointVal (x y : Int) : PyVal := PyVal.pairV (PyVal.intV x) (PyVal.intV y)

/-- Semantics of `point not in point not in forbidden_points`, after Python's chained
comparison expansion. -/
def fallbackCond (x y : Int) (forbidden : List PyVal) : Prop :=
  ¬ pyInPair (pointVal x y) (PyVal.intV x) (PyVal.intV y) ∧
    ¬ pyInList (pointVal x y) forbidden

instance (x y : Int) (forbidden : List PyVal) : Decidable (fallbackCond x y forbidden) := by
  unfold fallbackCond; infer_instance

theorem fallbackCond_iff (x y : Int) (forbidden : List PyVal) :
    fallbackCond x y forbidden ↔ ¬ pyInList (pointVal x y) forbidden := by
  unfold fallbackCond pyInPair pointVal
  simp

/-- C8: the malformed double-negation predicate collapses to
`point not in forbidden_points` — a tuple is never equal to either of its int
components, so `point not in point` is always true — and therefore filtering
the free-point permutation with it keeps exactly the non-forbidden points in
order. -/
theorem C8_fallback_filter (x y : Int) (forbidden : List PyVal) (free : List Point) :
    (fallbackCond x y forbidden ↔ ¬ pyInList (pointVal x y) forbidden) ∧
      free.filter (fun p => decide (fallbackCond p.1 p.2 forbidden))
        = free.filter (fun p => decide (¬ pyInList (pointVal p.1 p.2) forbidden)) := by
  refine ⟨fallbackCond_iff x y forbidden, ?_⟩
  apply List.filter_congr
  intro p _
  rw [decide_eq_decide]
  exact fallbackCond_iff p.1 p.2 forbidden

/-!
## Claim C5: serialisation round trip

`convert_state_to_string` walks the rows (`y` outer, `x` inner), emits one
character per cell and a `;` after every row.  `convert_string_to_state`
splits on the separator, drops empty chunks, reads the board size off the
parsed grid and fills the cells.  Strings are modelled as `List Char`.
A cell value outside the four known colours would raise `KeyError` in the
serialiser's dict lookup; the model returns a placeholder character that is
never produced for the states the claim ranges over (the round-trip theorem
assumes the §3 invariant that cells hold one of the four values).
-/

/-- The `point_states` encoding dict of `convert_state_to_string`. -/
def charOfState (v : Nat) : Char :=
  if v = BLACK then 'X'
  else if v = GREY then '#'
  else if v = WHITE then 'O'
  else if v = FREE then '.'
  else '?'

/-- The `point_states` decoding dict of `convert_string_to_state`; `none`
models the `KeyError` on an unknown character. -/
def stateOfChar (c : Char) : Option Nat :=
  if c = 'X' then some BLACK
  else if c = '#' then some GREY
  else if c = 'O' then some WHITE
  else if c = '.' then some FREE
  else none

/-- Model of `GameState.convert_state_to_string` (the separator `;` is hard-coded in
the source). -/
def convertStateToString (s : GameState) : List Char :=
  (List.range s.board.h).flatMap (fun y =>
    ((List.range s.board.w).map fun x => charOfState (s.cells (((x : Nat) : Int), ((y : Nat) : Int))))
      ++ [';'])

/-- Python `str.split(sep)` for a single-character separator: every
occurrence splits, empty chunks included. -/
def splitOnSep (sep : Char) : List Char → List (List Char)
  | [] => [[]]
  | c :: rest =>
    if c = sep then [] :: splitOnSep sep rest
    else
      match splitOnSep sep rest with
      | [] => [[c]]
      | h :: t => (c :: h) :: t

/-- Model of `GameState.convert_string_to_state`: split, drop empty rows, infer the
board size from the first row and the row count, then fill every in-bounds
cell from its character.  `none` models the exceptions Python raises on an
empty grid, a row shorter than the first one, or an unknown character. -/
def convertStringToState (l : List Char) (sep : Char) : Option GameState :=
  match (splitOnSep sep l).filter (fun r => !r.isEmpty) with
  | [] => none
  | r0 :: rest =>
    if (∀ r ∈ r0 :: rest, r0.length ≤ r.length) ∧
        (∀ r ∈ r0 :: rest, ∀ c ∈ r.take r0.length, (stateOfChar c).isSome) then
      some
        { board := { w := r0.length, h := (r0 :: rest).length },
          cells := fun p =>
            if InBounds { w := r0.length, h := (r0 :: rest).length } p then
              (stateOfChar (((r0 :: rest).getD p.2.toNat []).getD p.1.toNat ' ')).getD FREE
            else FREE,
          turn := BLACK,
          score := fun _ => 0 }
    else none

theorem charOfState_ne_sep (v : Nat) : charOfState v ≠ ';' := by
  unfold charOfState
  split_ifs <;> decide

theorem stateOfChar_charOfState {v : Nat}
    (h : v = FREE ∨ v = BLACK ∨ v = GREY ∨ v = WHITE) :
    stateOfChar (charOfState v) = some v := by
  rcases h with rfl | rfl | rfl | rfl <;> decide

theorem splitOnSep_append (sep : Char) (a rest : List Char) (ha : sep ∉ a) :
    splitOnSep sep (a ++ sep :: rest) = a :: splitOnSep sep rest := by
  induction a with
  | nil =>
    rw [List.nil_append, splitOnSep, if_pos rfl]
  | cons c a ih =>
    have hc : c ≠ sep := fun h => ha (h ▸ List.mem_cons_self c a)
    rw [List.cons_append, splitOnSep, if_neg hc,
      ih (fun h => ha (List.mem_cons_of_mem c h))]

theorem splitOnSep_flatMap (sep : Char) (rows : List (List Char))
    (h : ∀ r ∈ rows, sep ∉ r) :
    splitOnSep sep (rows.flatMap (fun r => r ++ [sep])) = rows ++ [[]] := by
  induction rows with
  | nil => rfl
  | cons r rows ih =>
    rw [List.flatMap_cons, List.append_assoc, List.singleton_append,
      splitOnSep_append sep r _ (h r (List.mem_cons_self r rows)),
      ih (fun r2 hr2 => h r2 (List.mem_cons_of_mem r hr2)), List.cons_append]

theorem filter_nonempty_rows (rows : List (List Char)) (h : ∀ r ∈ rows, r ≠ []) :
    (rows ++ [[]]).filter (fun r => !r.isEmpty) = rows := by
  rw [List.filter_append]
  have h2 : ([([] : List Char)] : List (List Char)).filter (fun r => !r.isEmpty) = [] := rfl
  rw [h2, List.append_nil]
  apply List.filter_eq_self.mpr
  intro r hr
  cases r with
  | nil => exact absurd rfl (h [] hr)
  | cons a t => rfl

theorem convertStringToState_cons (l : List Char) (sep : Char) (r0 : List Char)
    (rest : List (List Char))
    (h : (splitOnSep sep l).filter (fun r => !r.isEmpty) = r0 :: rest) :
    convertStringToState l sep
      = if (∀ r ∈ r0 :: rest, r0.length ≤ r.length) ∧
            (∀ r ∈ r0 :: rest, ∀ c ∈ r.take r0.length, (stateOfChar c).isSome) then
          some
            { board := { w := r0.length, h := (r0 :: rest).length },
              cells := fun p =>
                if InBounds { w := r0.length, h := (r0 :: rest).length } p then
                  (stateOfChar
                    (((r0 :: rest).getD p.2.toNat []).getD p.1.toNat ' ')).getD FREE
                else FREE,
              turn := BLACK,
              score := fun _ => 0 }
        else none := by
  rw [convertStringToState, h]

/-- C5: serialising a Game State and parsing it back with the separator `;`
succeeds, reproduces the board size, and reproduces every in-bounds cell.
The hypotheses record what holds of every reachable state: positive board
dimensions (enforced by `Goban.__init__`) and cells drawn from the four
colour values (§3 invariant). -/
theorem C5_round_trip (s : GameState) (hw : 1 ≤ s.board.w) (hh : 1 ≤ s.board.h)
    (hcells : ∀ p, InBounds s.board p →
      s.cells p = FREE ∨ s.cells p = BLACK ∨ s.cells p = GREY ∨ s.cells p = WHITE) :
    ∃ s2, convertStringToState (convertStateToString s) ';' = some s2 ∧
      s2.board = s.board ∧ ∀ p, InBounds s.board p → s2.cells p = s.cells p := by
  have hser : convertStateToString s
      = ((List.range s.board.h).map (fun y =>
            (List.range s.board.w).map
              (fun x => charOfState (s.cells (((x : Nat) : Int), ((y : Nat) : Int)))))).flatMap
          (fun r => r ++ [';']) := by
    rw [convertStateToString, List.flatMap_map]
  have hnos : ∀ r ∈ (List.range s.board.h).map (fun y =>
      (List.range s.board.w).map
        (fun x => charOfState (s.cells (((x : Nat) : Int), ((y : Nat) : Int))))), (';' : Char) ∉ r := by
    intro r hr
    rw [List.mem_map] at hr
    obtain ⟨y, _, rfl⟩ := hr
    intro hc
    rw [List.mem_map] at hc
    obtain ⟨x, _, hx⟩ := hc
    exact charOfState_ne_sep _ hx
  have hne : ∀ r ∈ (List.range s.board.h).map (fun y =>
      (List.range s.board.w).map
        (fun x => charOfState (s.cells (((x : Nat) : Int), ((y : Nat) : Int))))), r ≠ [] := by
    intro r hr
    rw [List.mem_map] at hr
    obtain ⟨y, _, rfl⟩ := hr
    intro hnil
    have hlen := congrArg List.length hnil
    simp only [List.length_map, List.length_range, List.length_nil] at hlen
    omega
  have hscrut : (splitOnSep ';' (convertStateToString s)).filter (fun r => !r.isEmpty)
      = (List.range s.board.h).map (fun y =>
          (List.range s.board.w).map
            (fun x => charOfState (s.cells (((x : Nat) : Int), ((y : Nat) : Int))))) := by
    rw [hser, splitOnSep_flatMap ';' _ hnos, filter_nonempty_rows _ hne]
  cases hr : (List.range s.board.h).map (fun y =>
      (List.range s.board.w).map
        (fun x => charOfState (s.cells (((x : Nat) : Int), ((y : Nat) : Int))))) with
  | nil =>
    exfalso
    have hlen := congrArg List.length hr
    simp only [List.length_map, List.length_range, List.length_nil] at hlen
    omega
  | cons r0 rest =>
    have hmemlen : ∀ r ∈ r0 :: rest, r.length = s.board.w := by
      rw [← hr]
      intro r hrr
      rw [List.mem_map] at hrr
      obtain ⟨y, _, rfl⟩ := hrr
      rw [List.length_map, List.length_range]
    have hr0len : r0.length = s.board.w := hmemlen r0 (List.mem_cons_self r0 rest)
    have hrowslen : (r0 :: rest).length = s.board.h := by
      rw [← hr, List.length_map, List.length_range]
    have hboard : ({ w := r0.length, h := (r0 :: rest).length } : Board) = s.board := by
      rw [hr0len, hrowslen]
    have hvalid : (∀ r ∈ r0 :: rest, r0.length ≤ r.length) ∧
        (∀ r ∈ r0 :: rest, ∀ c ∈ r.take r0.length, (stateOfChar c).isSome) := by
      constructor
      · intro r hrr
        rw [hmemlen r hrr, hr0len]
      · intro r hrr c hc
        have hc2 : c ∈ r := List.mem_of_mem_take hc
        rw [← hr] at hrr
        rw [List.mem_map] at hrr
        obtain ⟨y, hy, rfl⟩ := hrr
        rw [List.mem_map] at hc2
        obtain ⟨x, hx, rfl⟩ := hc2
        rw [List.mem_range] at hx hy
        have hpin : InBounds s.board (((x : Nat) : Int), ((y : Nat) : Int)) := by
          refine ⟨by simp, by simp; exact_mod_cast hx, by simp, by simp; exact_mod_cast hy⟩
        rw [stateOfChar_charOfState (hcells _ hpin)]
        rfl
    rw [convertStringToState_cons _ _ _ _ (hr ▸ hscrut), if_pos hvalid]
    refine ⟨_, rfl, hboard, ?_⟩
    intro p hp
    have hp' : InBounds { w := r0.length, h := (r0 :: rest).length } p := by
      rw [hboard]; exact hp
    dsimp only
    rw [if_pos hp']
    obtain ⟨px, py⟩ := p
    obtain ⟨h1, h2, h3, h4⟩ := hp
    have hylt : py.toNat < (r0 :: rest).length := by rw [hrowslen]; omega
    have hylt2 : py.toNat < ((List.range s.board.h).map (fun y =>
        (List.range s.board.w).map
          (fun x => charOfState (s.cells (((x : Nat) : Int), ((y : Nat) : Int)))))).length := by
      rw [List.length_map, List.length_range]; omega
    have hrow : (r0 :: rest).getD py.toNat []
        = (List.range s.board.w).map
            (fun x => charOfState (s.cells (((x : Nat) : Int), ((py.toNat : Nat) : Int)))) := by
      rw [← hr, List.getD_eq_getElem _ _ hylt2, List.getElem_map, List.getElem_range]
    rw [hrow]
    have hxlt : px.toNat < ((List.range s.board.w).map
        (fun x => charOfState (s.cells (((x : Nat) : Int), ((py.toNat : Nat) : Int))))).length := by
      rw [List.length_map, List.length_range]; omega
    rw [List.getD_eq_getElem _ _ hxlt, List.getElem_map, List.getElem_range]
    have hcast : ((((px.toNat : Nat)) : Int), (((py.toNat : Nat)) : Int)) = (px, py) := by
      rw [Int.toNat_of_nonneg h1, Int.toNat_of_nonneg h3]
    rw [hcast, stateOfChar_charOfState (hcells (px, py) ⟨h1, h2, h3, h4⟩)]
    rfl

/-- Witness for `C5_round_trip` at a fresh 1×1 state. -/
theorem C5_witness :
    1 ≤ (initState { w := 1, h := 1 }).board.w ∧
      1 ≤ (initState { w := 1, h := 1 }).board.h ∧
      (∀ p, InBounds (initState { w := 1, h := 1 }).board p →
        (initState { w := 1, h := 1 }).cells p = FREE ∨
          (initState { w := 1, h := 1 }).cells p = BLACK ∨
          (initState { w := 1, h := 1 }).cells p = GREY ∨
          (initState { w := 1, h := 1 }).cells p = WHITE) ∧
      ∃ s2, convertStringToState
            (convertStateToString (initState { w := 1, h := 1 })) ';' = some s2 ∧
          s2.board = (initState { w := 1, h := 1 }).board ∧
          ∀ p, InBounds (initState { w := 1, h := 1 }).board p →
            s2.cells p = (initState { w := 1, h := 1 }).cells p :=
  ⟨by decide, by decide, fun p _ => Or.inl rfl,
    C5_round_trip (initState { w := 1, h := 1 }) (by decide) (by decide)
      (fun p _ => Or.inl rfl)⟩
